import Mathlib

/-!
# Verification of the tenant data-synchronization pipeline

Shallow embedding of the Shopify multi-tenant sync backend
(`backend/src/lib/syncService.js`, `backend/src/lib/shopifyClient.js`,
`backend/src/lib/shopifyGraphQL.js`) together with proofs of the
specification claims about it.

Conventions used throughout the embedding:
* JavaScript values that may be `undefined`/`null` are modelled as `Option`.
  A string is JS-truthy iff it is present and nonempty, so the JS check
  `x && ...` on an optional string becomes `truthyStr x`.
* Monetary amounts are modelled as `JsNum`: either a `Rat` (the result of
  `parseFloat` on well-formed decimal input) or `NaN`. `parseFloat` itself
  is a parameter of the normalizers, modelling the JS builtin.
* Prisma storage is modelled as explicit lists of rows plus a fresh-id
  counter. Each Prisma call made by the source is mirrored by one Lean
  function on the store, and every call additionally emits a `DbOp` trace
  element so that claims about *which* operations run can be stated.
* `async/await` sequencing is modelled by explicit state passing; the
  `Promise.all` of single-key `updateMany` calls in a batch is modelled as a
  sequential fold (the updates target disjoint keys in every theorem below,
  so the interleaving order is immaterial).
-/

set_option autoImplicit false

namespace SyncPipeline

/-- JS truthiness for an optional string: present and nonempty. -/
def truthyStr (x : Option String) : Bool :=
  match x with
  | some s => decide (s ≠ "")
  | none => false

/-- The JS expression `x || null` on an optional string: an empty string
collapses to `null`. -/
def jsOrNone (x : Option String) : Option String :=
  if truthyStr x then x else none

/-- A JS number as the pipeline produces them: either `NaN` (the result of
`parseFloat` on unparseable input) or a rational value. -/
inductive JsNum where
  | nan
  | num (q : Rat)
  deriving DecidableEq

/-- The JS expression `x || 0` on a number: `NaN` and `0` are falsy and
become `0`, anything else is kept. -/
def jsOrZeroJ (x : JsNum) : JsNum :=
  match x with
  | .nan => .num 0
  | .num q => if q = 0 then .num 0 else .num q

/-- `parseFloat(x)` where `x` may be `undefined` (`parseFloat(undefined)`
is `NaN`). The parse function for present strings is a parameter of the
normalizers (it models the JS builtin). -/
def parseFloatOpt (parse : String → JsNum) (x : Option String) : JsNum :=
  match x with
  | some s => parse s
  | none => .nan

/-! ## Normalized records (outputs of the protocol clients) -/

/-- Normalized customer record, the shape produced by `fetchCustomers` /
`fetchCustomersGraphQL` and consumed by `upsertCustomers`. -/
structure CustRec where
  shopifyId : Option String
  email : Option String
  firstName : Option String
  lastName : Option String
  totalSpent : JsNum
  deriving DecidableEq

/-- Normalized product record (`fetchProducts` output, `upsertProducts`
input). -/
structure ProdRec where
  shopifyId : String
  title : Option String
  vendor : Option String
  productType : Option String
  price : JsNum
  deriving DecidableEq

/-- Normalized order line item (`fetchOrdersGraphQL` output). -/
structure LineItemRec where
  shopifyId : String
  title : Option String
  quantity : Int
  price : JsNum
  deriving DecidableEq

/-- Normalized order record. The REST client (`fetchOrders`) produces no
`lineItems` (modelled as `[]`); the GraphQL client (`fetchOrdersGraphQL`)
fills them. `orderDate` carries the raw `created_at` value (the JS `Date`
wrapper adds nothing the pipeline inspects). -/
structure OrderRec where
  shopifyId : String
  customerId : Option String
  orderNumber : Option String
  totalPrice : JsNum
  orderDate : Option String
  lineItems : List LineItemRec
  deriving DecidableEq

/-! ## Storage rows (the Prisma tables) -/

/-- A row of the `Customer` table. `id` models the internal cuid key
(internal keys are nonempty strings in the real schema, hence always
JS-truthy; we model them as `Nat`). -/
structure CustomerRow where
  id : Nat
  tenantId : String
  shopifyId : Option String
  email : Option String
  firstName : Option String
  lastName : Option String
  totalSpent : JsNum
  deriving DecidableEq

/-- A row of the `Product` table. -/
structure ProductRow where
  id : Nat
  tenantId : String
  shopifyId : String
  title : Option String
  vendor : Option String
  productType : Option String
  price : JsNum
  deriving DecidableEq

/-- A row of the `Order` table. -/
structure OrderRow where
  id : Nat
  tenantId : String
  shopifyId : String
  customerId : Option Nat
  orderNumber : Option String
  totalPrice : JsNum
  orderDate : Option String
  deriving DecidableEq

/-- A row of the `OrderLineItem` table. -/
structure LineItemRow where
  id : Nat
  orderId : Nat
  shopifyId : String
  title : Option String
  quantity : Int
  price : JsNum
  deriving DecidableEq

/-- A row of the `Tenant` table. -/
structure TenantRow where
  id : String
  name : String
  shopifyDomain : String
  accessToken : String
  deriving DecidableEq

/-- The persistent store: all tenant-scoped tables plus a fresh-id counter
standing in for cuid generation. -/
structure Store where
  tenants : List TenantRow
  customers : List CustomerRow
  products : List ProductRow
  orders : List OrderRow
  lineItems : List LineItemRow
  nextId : Nat
  deriving DecidableEq

/-- Trace element: one storage or network operation performed by the
pipeline, recorded in execution order. -/
inductive DbOp where
  | tenantFindUnique (tid : String)
  | customerFindMany (tid : String) (ids : List String)
  | customerCreateMany (tid : String) (n : Nat)
  | customerUpdateMany (tid : String) (sid : Option String)
  | productCreateMany (tid : String) (n : Nat)
  | productUpdateMany (tid : String) (sid : String)
  | orderCreateMany (tid : String) (n : Nat)
  | orderUpdateMany (tid : String) (sid : String)
  | fetchCustomersGraphQL
  | fetchCustomersRest
  | fetchProductsGraphQL
  | fetchOrdersGraphQL
  | fetchProductsRest
  | fetchOrdersRest
  deriving DecidableEq

/-! ## Generic keyed-table semantics

These functions model what one Prisma call does to one table, generically in
the row type. A table is a `List R` of rows together with the store-wide
fresh-id counter. -/

/-- Abstract view of one table: key projection, scalar-field projection,
scalar-field overwrite, and row construction from a fresh id. -/
structure TableModel (R K F : Type) where
  kf : R → K
  ff : R → F
  setF : F → R → R
  mkR : Nat → K → F → R

/-- The laws any concrete table satisfies: updates do not move rows between
keys, and a freshly built row carries the requested key and fields. -/
structure TableModel.Lawful {R K F : Type} (M : TableModel R K F) : Prop where
  kf_set : ∀ f r, M.kf (M.setF f r) = M.kf r
  ff_set : ∀ f r, M.ff (M.setF f r) = f
  kf_mk : ∀ i k f, M.kf (M.mkR i k f) = k
  ff_mk : ∀ i k f, M.ff (M.mkR i k f) = f

variable {R K F : Type}

/-- Rows of the table holding key `k`. -/
def genrows [DecidableEq K] (M : TableModel R K F) (k : K) (tb : List R × Nat) : List R :=
  tb.1.filter (fun r => decide (M.kf r = k))

/-- `createMany` with `skipDuplicates` inserts each datum in order, skipping
a datum whose key already has a row (including rows inserted earlier in the
same call). This is the effect of one datum. -/
def geninsert [DecidableEq K] (M : TableModel R K F) (k : K) (f : F) (tb : List R × Nat) : List R × Nat :=
  if tb.1.any (fun r => decide (M.kf r = k)) then tb
  else (tb.1 ++ [M.mkR tb.2 k f], tb.2 + 1)

/-- `updateMany` with a single-key `where` clause: overwrite the scalar
fields of every row holding the key. -/
def genupdate [DecidableEq K] (M : TableModel R K F) (k : K) (f : F) (tb : List R × Nat) : List R × Nat :=
  (tb.1.map (fun r => if M.kf r = k then M.setF f r else r), tb.2)

/-- One whole `createMany` call over a batch of (key, fields) data. -/
def gencreateMany [DecidableEq K] (M : TableModel R K F) (batch : List (K × F)) (tb : List R × Nat) : List R × Nat :=
  batch.foldl (fun acc p => geninsert M p.1 p.2 acc) tb

/-- The `Promise.all` of per-record `updateMany` calls over a batch,
sequentialized. -/
def genupdateBatch [DecidableEq K] (M : TableModel R K F) (batch : List (K × F)) (tb : List R × Nat) : List R × Nat :=
  batch.foldl (fun acc p => genupdate M p.1 p.2 acc) tb

/-- One batch of the source's upsert loop: bulk insert-new, then bulk
update-existing-by-key. -/
def genprocess [DecidableEq K] (M : TableModel R K F) (batch : List (K × F)) (tb : List R × Nat) : List R × Nat :=
  genupdateBatch M batch (gencreateMany M batch tb)

/-! ## Concrete table models -/

/-- Scalar (non-key) fields of a customer row, i.e. the `data` of the
source's `createMany`/`updateMany` calls. -/
structure CustFields where
  email : Option String
  firstName : Option String
  lastName : Option String
  totalSpent : JsNum
  deriving DecidableEq

/-- Scalar fields of a product row. -/
structure ProdFields where
  title : Option String
  vendor : Option String
  productType : Option String
  price : JsNum
  deriving DecidableEq

/-- Scalar fields of an order row (including the resolved internal customer
key, which the source writes as a scalar). -/
structure OrderFields where
  customerId : Option Nat
  orderNumber : Option String
  totalPrice : JsNum
  orderDate : Option String
  deriving DecidableEq

/-- Customer table viewed through the generic model: key =
`(tenantId, shopifyId)`. -/
def MCust : TableModel CustomerRow (String × Option String) CustFields where
  kf := fun r => (r.tenantId, r.shopifyId)
  ff := fun r => ⟨r.email, r.firstName, r.lastName, r.totalSpent⟩
  setF := fun f r => { r with email := f.email, firstName := f.firstName,
                              lastName := f.lastName, totalSpent := f.totalSpent }
  mkR := fun i k f => ⟨i, k.1, k.2, f.email, f.firstName, f.lastName, f.totalSpent⟩

/-- Product table viewed through the generic model. -/
def MProd : TableModel ProductRow (String × String) ProdFields where
  kf := fun r => (r.tenantId, r.shopifyId)
  ff := fun r => ⟨r.title, r.vendor, r.productType, r.price⟩
  setF := fun f r => { r with title := f.title, vendor := f.vendor,
                              productType := f.productType, price := f.price }
  mkR := fun i k f => ⟨i, k.1, k.2, f.title, f.vendor, f.productType, f.price⟩

/-- Order table viewed through the generic model. -/
def MOrder : TableModel OrderRow (String × String) OrderFields where
  kf := fun r => (r.tenantId, r.shopifyId)
  ff := fun r => ⟨r.customerId, r.orderNumber, r.totalPrice, r.orderDate⟩
  setF := fun f r => { r with customerId := f.customerId, orderNumber := f.orderNumber,
                              totalPrice := f.totalPrice, orderDate := f.orderDate }
  mkR := fun i k f => ⟨i, k.1, k.2, f.customerId, f.orderNumber, f.totalPrice, f.orderDate⟩

theorem MCust_lawful : MCust.Lawful := by
  constructor <;> intros <;> rfl

theorem MProd_lawful : MProd.Lawful := by
  constructor <;> intros <;> rfl

theorem MOrder_lawful : MOrder.Lawful := by
  constructor <;> intros <;> rfl

/-! ## Batching

The source processes records in slices of `BATCH_SIZE = 100`
(`for (let i = 0; i < xs.length; i += BATCH_SIZE) xs.slice(i, i + BATCH_SIZE)`).
The fuel argument (initialized to the list length, which the loop never
exceeds) makes the recursion structural. -/

def chunksOfAux {α : Type} (n : Nat) : Nat → List α → List (List α)
  | 0, _ => []
  | _, [] => []
  | fuel + 1, x :: xs => (x :: xs).take n :: chunksOfAux n fuel ((x :: xs).drop n)

/-- Slices of length 100, as in the source's batch loop. -/
def chunks100 {α : Type} (l : List α) : List (List α) :=
  chunksOfAux 100 l.length l

/-! ## The Upsert Engine (`syncService.js`) -/

/-- The `data` object built for one customer in `upsertCustomers`
(`email: customer.email || null, ..., totalSpent: customer.totalSpent || 0`). -/
def custDataOf (c : CustRec) : CustFields :=
  ⟨jsOrNone c.email, jsOrNone c.firstName, jsOrNone c.lastName, jsOrZeroJ c.totalSpent⟩

/-- The `data` object built for one product in `upsertProducts` (fields are
passed through unchanged). -/
def prodDataOf (p : ProdRec) : ProdFields :=
  ⟨p.title, p.vendor, p.productType, p.price⟩

/-- Lift a generic table operation on the customer table into the store. -/
def onCustomers (f : List CustomerRow × Nat → List CustomerRow × Nat) (s : Store) : Store :=
  let tb := f (s.customers, s.nextId)
  { s with customers := tb.1, nextId := tb.2 }

/-- Lift a generic table operation on the product table into the store. -/
def onProducts (f : List ProductRow × Nat → List ProductRow × Nat) (s : Store) : Store :=
  let tb := f (s.products, s.nextId)
  { s with products := tb.1, nextId := tb.2 }

/-- Lift a generic table operation on the order table into the store. -/
def onOrders (f : List OrderRow × Nat → List OrderRow × Nat) (s : Store) : Store :=
  let tb := f (s.orders, s.nextId)
  { s with orders := tb.1, nextId := tb.2 }

/-- `upsertCustomers(tenantId, customers)` from `syncService.js`: early
return on an empty list, then per 100-record batch one
`customer.createMany({skipDuplicates: true})` followed by a
`customer.updateMany` per record. Returns the processed count, the new
store, and the operation trace. -/
def upsertCustomers (tenantId : String) (customers : List CustRec) (s : Store) :
    Nat × Store × List DbOp :=
  if customers.length = 0 then (0, s, [])
  else
    (chunks100 customers).foldl
      (fun acc batch =>
        let pairs := batch.map (fun c => ((tenantId, c.shopifyId), custDataOf c))
        let s1 := onCustomers (genprocess MCust pairs) acc.2.1
        (acc.1 + batch.length, s1,
          acc.2.2 ++ DbOp.customerCreateMany tenantId batch.length ::
            batch.map (fun c => DbOp.customerUpdateMany tenantId c.shopifyId)))
      (0, s, [])

/-- `upsertProducts(tenantId, products)` from `syncService.js`: same batch
shape as `upsertCustomers`, with product fields passed through unchanged. -/
def upsertProducts (tenantId : String) (products : List ProdRec) (s : Store) :
    Nat × Store × List DbOp :=
  if products.length = 0 then (0, s, [])
  else
    (chunks100 products).foldl
      (fun acc batch =>
        let pairs := batch.map (fun p => ((tenantId, p.shopifyId), prodDataOf p))
        let s1 := onProducts (genprocess MProd pairs) acc.2.1
        (acc.1 + batch.length, s1,
          acc.2.2 ++ DbOp.productCreateMany tenantId batch.length ::
            batch.map (fun p => DbOp.productUpdateMany tenantId p.shopifyId)))
      (0, s, [])

/-- First-occurrence deduplication, the effect of
`[...new Set(xs)]` on a list of strings. -/
def dedupFirstAux (seen : List String) : List String → List String
  | [] => []
  | x :: xs => if x ∈ seen then dedupFirstAux seen xs
               else x :: dedupFirstAux (x :: seen) xs

/-- `[...new Set(xs)]`. -/
def dedupFirst (l : List String) : List String :=
  dedupFirstAux [] l

/-- The referenced customer external ids of an order batch:
`orders.map(o => o.customerId).filter(Boolean)` (a JS-falsy id, i.e. absent
or empty, is dropped) deduplicated by `new Set`. -/
def referencedCustomerIds (orders : List OrderRec) : List String :=
  dedupFirst ((orders.map (fun o => o.customerId)).filterMap
    (fun c => match c with
      | some cid => if cid ≠ "" then some cid else none
      | none => none))

/-- The rows returned by the batched
`customer.findMany({where: {tenantId, shopifyId: {in: ids}}})` lookup
(SQL `IN` never matches a NULL column). -/
def customerLookup (tenantId : String) (ids : List String) (s : Store) : List CustomerRow :=
  s.customers.filter (fun r =>
    decide (r.tenantId = tenantId) &&
      match r.shopifyId with
      | some sid => decide (sid ∈ ids)
      | none => false)

/-- `customersMap.get(cid)`: the map is built by `forEach(set)`, so the last
matching row wins; internal cuid keys are nonempty strings, hence the
source's trailing `|| null` is the identity on the result. -/
def mapGet (rows : List CustomerRow) (cid : String) : Option Nat :=
  (rows.reverse.find? (fun r => decide (r.shopifyId = some cid))).map (fun r => r.id)

/-- `order.customerId ? customersMap.get(order.customerId) || null : null`. -/
def resolveRef (found : List CustomerRow) (c : Option String) : Option Nat :=
  match c with
  | some cid => if cid ≠ "" then mapGet found cid else none
  | none => none

/-- The `data` object built for one order in `upsertOrders` (note: the
fetched `lineItems` of the record are not part of it — the source drops
them). -/
def orderDataOf (found : List CustomerRow) (o : OrderRec) : OrderFields :=
  ⟨resolveRef found o.customerId, o.orderNumber, o.totalPrice, o.orderDate⟩

/-- `upsertOrders(tenantId, orders)` from `syncService.js`: early return on
an empty list; one batched customer lookup (only when some order references
a customer); then per 100-record batch a `createMany({skipDuplicates})`
followed by per-record `updateMany` calls. The `OrderLineItem` table is
never touched. -/
def upsertOrders (tenantId : String) (orders : List OrderRec) (s : Store) :
    Nat × Store × List DbOp :=
  if orders.length = 0 then (0, s, [])
  else
    let refIds := referencedCustomerIds orders
    let found := if refIds.length > 0 then customerLookup tenantId refIds s else []
    let lookupOps := if refIds.length > 0 then [DbOp.customerFindMany tenantId refIds] else []
    let out :=
      (chunks100 orders).foldl
        (fun acc batch =>
          let pairs := batch.map (fun o => ((tenantId, o.shopifyId), orderDataOf found o))
          let s1 := onOrders (genprocess MOrder pairs) acc.2.1
          (acc.1 + batch.length, s1,
            acc.2.2 ++ DbOp.orderCreateMany tenantId batch.length ::
              batch.map (fun o => DbOp.orderUpdateMany tenantId o.shopifyId)))
        (0, s, [])
    (out.1, out.2.1, lookupOps ++ out.2.2)

/-! ## The Sync Orchestrator (`syncAll` in `syncService.js`) -/

/-- The summary returned on success. -/
structure Summary where
  customersUpserted : Nat
  productsUpserted : Nat
  ordersUpserted : Nat
  deriving DecidableEq

/-- Result of a full sync: outcome, final store, operation trace. -/
structure SyncOutcome where
  result : Except String Summary
  store : Store
  trace : List DbOp

/-- `syncAll(tenantId)` from `syncService.js`. The four possible network
fetch outcomes are passed in as parameters (each models the settled value of
the corresponding client call); the trace records which client calls the
control flow actually issues. Control flow of the source: tenant lookup
(throw `'Tenant not found'` if absent); customers via
`fetchCustomersGraphQL`, falling back to the REST `fetchCustomers` on any
error; products and orders via the REST clients only, issued together in a
`Promise.all`; then the three upserts in dependency order. -/
def syncAll (tenantId : String)
    (gqlCustomers : Except String (List CustRec))
    (restCustomers : Except String (List CustRec))
    (restProducts : Except String (List ProdRec))
    (restOrders : Except String (List OrderRec))
    (s : Store) : SyncOutcome :=
  match s.tenants.find? (fun t => decide (t.id = tenantId)) with
  | none => ⟨.error "Tenant not found", s, [.tenantFindUnique tenantId]⟩
  | some _ =>
    let custStep : Except String (List CustRec) × List DbOp :=
      match gqlCustomers with
      | .ok cs => (.ok cs, [.fetchCustomersGraphQL])
      | .error _ =>
        match restCustomers with
        | .ok cs => (.ok cs, [.fetchCustomersGraphQL, .fetchCustomersRest])
        | .error e2 => (.error e2, [.fetchCustomersGraphQL, .fetchCustomersRest])
    match custStep.1 with
    | .error e => ⟨.error e, s, DbOp.tenantFindUnique tenantId :: custStep.2⟩
    | .ok customers =>
      let trace2 := custStep.2 ++ [DbOp.fetchProductsRest, DbOp.fetchOrdersRest]
      match restProducts, restOrders with
      | .error e, _ => ⟨.error e, s, DbOp.tenantFindUnique tenantId :: trace2⟩
      | .ok _, .error e => ⟨.error e, s, DbOp.tenantFindUnique tenantId :: trace2⟩
      | .ok products, .ok orders =>
        let c := upsertCustomers tenantId customers s
        let p := upsertProducts tenantId products c.2.1
        let o := upsertOrders tenantId orders p.2.1
        ⟨.ok ⟨c.1, p.1, o.1⟩, o.2.1,
          DbOp.tenantFindUnique tenantId :: trace2 ++ c.2.2 ++ p.2.2 ++ o.2.2⟩

/-! ## The Pagination Fetcher (`fetchAllResources` in `shopifyClient.js`) -/

/-- One page response: `items` is `response.data[resourceKey]` (`none` when
the key is missing or not an array — the source's `Array.isArray` guard),
`next` records whether the `Link` header carries a `rel="next"` URL. -/
structure PageResp (α : Type) where
  items : Option (List α)
  next : Bool
  deriving DecidableEq

/-- `fetchAllResources`: the `while (nextUrl)` loop. The argument list is
the sequence of page responses the server returns along the `Link`-header
chain; the function returns the concatenated items together with the number
of page requests issued. The loop body appends `data[resourceKey]` when it
is an array and continues iff a `rel="next"` link is present. -/
def fetchAllResources {α : Type} : List (PageResp α) → List α × Nat
  | [] => ([], 0)
  | p :: rest =>
    let got := match p.items with
      | some l => l
      | none => []
    if p.next then
      let r := fetchAllResources rest
      (got ++ r.1, r.2 + 1)
    else (got, 1)

/-- A well-formed response chain: nonempty, every page before the last
advertises a next link, the last does not. This is exactly the shape a
consistent server produces. -/
inductive WFChain {α : Type} : List (PageResp α) → Prop
  | last (p : PageResp α) : p.next = false → WFChain [p]
  | cons (p : PageResp α) (rest : List (PageResp α)) :
      p.next = true → WFChain rest → WFChain (p :: rest)

/-- The items of a page, `[]` when absent. -/
def pageItems {α : Type} (p : PageResp α) : List α :=
  match p.items with
  | some l => l
  | none => []

/-! ## The Rate-Limit/Retry Wrapper (`requestWithRetry` in
`shopifyClient.js`) -/

/-- Outcome of one HTTP request: success, or an error response with a
status and an optional parsed `retry-after` header (in seconds). -/
inductive HttpOutcome (α : Type) where
  | success (a : α)
  | failure (status : Nat) (retryAfter : Option Rat)
  deriving DecidableEq

/-- Result of `requestWithRetry`: the value or the propagated error, the
total number of requests issued, and the list of sleep durations (ms). -/
structure RetryResult (α : Type) where
  result : Except (Nat × Option Rat) α
  requests : Nat
  sleeps : List Rat

/-- The sleep performed before a retry:
`waitTime = retryAfter ? parseFloat(retryAfter) * 1000 : 2000`, then
`wait(waitTime + 500)` (the 500 ms buffer is added in both cases). -/
def retryWaitMs (ra : Option Rat) : Rat :=
  (match ra with
   | some t => t * 1000
   | none => 2000) + 500

/-- `requestWithRetry(url, options, retries = 3)`. `resp i` is the outcome
of the `i`-th request on this URL. The source retries iff
`status === 429 && retries > 0`, sleeping
`(retryAfter ? parseFloat(retryAfter) * 1000 : 2000) + 500` ms, and
otherwise rethrows. The conjunction is split over the two `retries`
constructors to keep the recursion structural. -/
def requestWithRetry {α : Type} (resp : Nat → HttpOutcome α) (i : Nat) :
    Nat → RetryResult α
  | 0 =>
    match resp i with
    | .success a => ⟨.ok a, 1, []⟩
    | .failure st ra => ⟨.error (st, ra), 1, []⟩
  | retries + 1 =>
    match resp i with
    | .success a => ⟨.ok a, 1, []⟩
    | .failure st ra =>
      if st = 429 then
        let deeper := requestWithRetry resp (i + 1) retries
        ⟨deeper.result, deeper.requests + 1, retryWaitMs ra :: deeper.sleeps⟩
      else ⟨.error (st, ra), 1, []⟩

/-! ## The Record Normalizer

Raw record shapes as the REST Admin API returns them (`shopifyClient.js`),
with every field optional, and the normalizing `map` callbacks of
`fetchCustomers` / `fetchProducts` / `fetchOrders`. -/

/-- A raw REST address object (`default_address` or an element of
`addresses`). The JS property `default` is called `isDefault` here
(`default` is reserved in Lean). -/
structure RawAddress where
  first_name : Option String
  last_name : Option String
  firstName : Option String
  lastName : Option String
  name : Option String
  email : Option String
  isDefault : Option Bool
  deriving DecidableEq

/-- A raw REST customer object. Only the properties the normalizer reads
are modelled; elements of `addresses` may be `null`. -/
structure RawCustomer where
  id : Option Nat
  email : Option String
  first_name : Option String
  firstName : Option String
  last_name : Option String
  lastName : Option String
  display_name : Option String
  name : Option String
  total_spent : Option String
  totalSpent : Option String
  default_address : Option RawAddress
  addresses : Option (List (Option RawAddress))
  deriving DecidableEq

/-- Helper for `splitWs`: walk the characters, collecting maximal nonempty
runs of non-whitespace (the accumulator holds the current run reversed). -/
def splitWsAux (acc : List Char) : List Char → List String
  | [] => if acc = [] then [] else [String.mk acc.reverse]
  | c :: cs =>
    if c.isWhitespace then
      if acc = [] then splitWsAux [] cs
      else String.mk acc.reverse :: splitWsAux [] cs
    else splitWsAux (c :: acc) cs

/-- `parts.join(' ')`: concatenation with a single-space separator. -/
def joinSpace : List String → String
  | [] => ""
  | [x] => x
  | x :: y :: t => x ++ " " ++ joinSpace (y :: t)

/-- `displayName.trim().split(/\s+/).filter(p => p.length > 0)`: the
maximal nonempty whitespace-free runs of the string. -/
def splitWs (s : String) : List String :=
  splitWsAux [] s.data

/-- Step 1 of `deriveNameParts`: the top-level name fields
(`first_name`/`firstName` and `last_name`/`lastName`, snake case first). -/
def dnpTopLevel (c : RawCustomer) : Option String × Option String :=
  (if truthyStr c.first_name then c.first_name
   else if truthyStr c.firstName then c.firstName
   else none,
   if truthyStr c.last_name then c.last_name
   else if truthyStr c.lastName then c.lastName
   else none)

/-- Step 2 of `deriveNameParts`: fill missing parts from `default_address`
(REST keys `first_name`/`last_name` checked before GraphQL keys
`firstName`/`lastName`), guarded by `if (!firstName || !lastName)`. -/
def dnpDefaultAddress (c : RawCustomer) (fl : Option String × Option String) :
    Option String × Option String :=
  if !truthyStr fl.1 || !truthyStr fl.2 then
    match c.default_address with
    | some addr =>
      let f1 := if !truthyStr fl.1 && truthyStr addr.first_name then addr.first_name else fl.1
      let l1 := if !truthyStr fl.2 && truthyStr addr.last_name then addr.last_name else fl.2
      let f2 := if !truthyStr f1 && truthyStr addr.firstName then addr.firstName else f1
      let l2 := if !truthyStr l1 && truthyStr addr.lastName then addr.lastName else l1
      (f2, l2)
    | none => fl
  else fl

/-- Step 3 of `deriveNameParts`: fill missing parts from the `addresses`
array (the entry with `default === true`, else the first entry; REST keys
only). -/
def dnpAddresses (c : RawCustomer) (fl : Option String × Option String) :
    Option String × Option String :=
  match c.addresses with
  | some addrs =>
    if (!truthyStr fl.1 || !truthyStr fl.2) && decide (0 < addrs.length) then
      let defaultAddr : Option RawAddress :=
        match addrs.find? (fun a =>
          match a with
          | some ad => decide (ad.isDefault = some true)
          | none => false) with
        | some a => a
        | none => (addrs.head?).getD none
      match defaultAddr with
      | some ad =>
        (if !truthyStr fl.1 && truthyStr ad.first_name then ad.first_name else fl.1,
         if !truthyStr fl.2 && truthyStr ad.last_name then ad.last_name else fl.2)
      | none => fl
    else fl
  | none => fl

/-- Step 4 of `deriveNameParts`: fill missing parts by splitting a display
name (`display_name`, else `name`, else `default_address.name`): a single
token fills only the first name; with several tokens the last token is the
last name and the rest, joined, the first name. -/
def dnpDisplayName (c : RawCustomer) (fl : Option String × Option String) :
    Option String × Option String :=
  if !truthyStr fl.1 || !truthyStr fl.2 then
    let displayName : Option String :=
      if truthyStr c.display_name then c.display_name
      else if truthyStr c.name then c.name
      else match c.default_address with
        | some ad => if truthyStr ad.name then ad.name else none
        | none => none
    match displayName with
    | some d =>
      let parts := splitWs d
      if parts.length = 1 then
        (if !truthyStr fl.1 then some ((parts.head?).getD "") else fl.1, fl.2)
      else if 1 < parts.length then
        let extractedLast := (parts.getLast?).getD ""
        let extractedFirst := joinSpace parts.dropLast
        (if !truthyStr fl.1 && decide (extractedFirst ≠ "") then some extractedFirst else fl.1,
         if !truthyStr fl.2 && decide (extractedLast ≠ "") then some extractedLast else fl.2)
      else fl
    | none => fl
  else fl

/-- `deriveNameParts(customer)` from `shopifyClient.js`: precedence
top-level fields, then `default_address`, then the `addresses` array, then
a display-name split; each step only fills the parts still missing, and the
final `{firstName: firstName || null, lastName: lastName || null}` collapses
empties. -/
def deriveNameParts (cust : Option RawCustomer) : Option String × Option String :=
  match cust with
  | none => (none, none)
  | some c =>
    let fl := dnpDisplayName c (dnpAddresses c (dnpDefaultAddress c (dnpTopLevel c)))
    (jsOrNone fl.1, jsOrNone fl.2)

/-- The `map` callback of `fetchCustomers` (REST): the `!customer` guard,
email from the top level or `default_address`, names via
`deriveNameParts`, `totalSpent` via `parseFloat(...) || 0` from
`total_spent` or `totalSpent`, and `shopifyId` as `String(id)` when the id
is truthy. -/
def normalizeCustomer (parse : String → JsNum) (cust : Option RawCustomer) : CustRec :=
  match cust with
  | none => ⟨none, none, none, none, .num 0⟩
  | some c =>
    let email : Option String :=
      if truthyStr c.email then c.email
      else match c.default_address with
        | some ad => if truthyStr ad.email then ad.email else none
        | none => none
    let names := deriveNameParts (some c)
    let totalSpent : JsNum :=
      if truthyStr c.total_spent then jsOrZeroJ (parseFloatOpt parse c.total_spent)
      else if truthyStr c.totalSpent then jsOrZeroJ (parseFloatOpt parse c.totalSpent)
      else .num 0
    let shopifyId : Option String :=
      match c.id with
      | some n => if n ≠ 0 then some (toString n) else none
      | none => none
    ⟨shopifyId, email, names.1, names.2, totalSpent⟩

/-- A raw REST product variant (only `price` is read). -/
structure RawVariant where
  price : Option String
  deriving DecidableEq

/-- A raw REST product object. -/
structure RawProduct where
  id : Nat
  title : Option String
  vendor : Option String
  product_type : Option String
  variants : Option (List RawVariant)
  deriving DecidableEq

/-- The `map` callback of `fetchProducts` (REST):
`price: product.variants?.[0]?.price ? parseFloat(product.variants[0].price) : 0`.
Note the absent `|| 0` guard: a present but unparseable price stays `NaN`. -/
def normalizeProduct (parse : String → JsNum) (p : RawProduct) : ProdRec :=
  let priceStr : Option String :=
    match p.variants with
    | some vs =>
      match vs.head? with
      | some v => v.price
      | none => none
    | none => none
  ⟨toString p.id, p.title, p.vendor, p.product_type,
    if truthyStr priceStr then parseFloatOpt parse priceStr else .num 0⟩

/-- The nested `customer` object of a raw REST order. -/
structure RawOrderCustomer where
  id : Option Nat
  deriving DecidableEq

/-- A raw REST order object. -/
structure RawOrder where
  id : Nat
  customer : Option RawOrderCustomer
  order_number : Option Nat
  total_price : Option String
  created_at : Option String
  deriving DecidableEq

/-- The `map` callback of `fetchOrders` (REST):
`customerId: order.customer?.id ? String(order.customer.id) : null`,
`orderNumber: order.order_number ? String(order.order_number) : null`,
`totalPrice: parseFloat(order.total_price) || 0`,
`orderDate: new Date(order.created_at)`. The REST shape carries no line
items. -/
def normalizeOrder (parse : String → JsNum) (o : RawOrder) : OrderRec :=
  ⟨toString o.id,
    (match o.customer with
     | some rc =>
       match rc.id with
       | some n => if n ≠ 0 then some (toString n) else none
       | none => none
     | none => none),
    (match o.order_number with
     | some n => if n ≠ 0 then some (toString n) else none
     | none => none),
    jsOrZeroJ (parseFloatOpt parse o.total_price),
    o.created_at, []⟩

/-! ## The GraphQL client (`shopifyGraphQL.js`) -/

/-- A GraphQL money value. -/
structure GqlMoney where
  amount : Option String
  deriving DecidableEq

/-- A GraphQL money bag (`{shopMoney {amount}}`). -/
structure GqlMoneyBag where
  shopMoney : Option GqlMoney
  deriving DecidableEq

/-- A GraphQL customer address. -/
structure GqlAddress where
  id : Option String
  firstName : Option String
  lastName : Option String
  name : Option String
  deriving DecidableEq

/-- `defaultEmailAddress` of a GraphQL customer. -/
structure GqlEmail where
  emailAddress : Option String
  deriving DecidableEq

/-- A GraphQL customer node, restricted to the properties the mapping in
`fetchCustomersGraphQL` reads. -/
structure GqlCustomer where
  id : Option String
  firstName : Option String
  lastName : Option String
  displayName : Option String
  defaultEmailAddress : Option GqlEmail
  amountSpent : Option GqlMoneyBag
  defaultAddress : Option GqlAddress
  addresses : Option (List GqlAddress)
  deriving DecidableEq

/-- The inline name derivation of `fetchCustomersGraphQL`
(`shopifyGraphQL.js`, body of the `for (const customer of nodes)` loop):
top-level `firstName`/`lastName`, then `defaultAddress`, then the
`addresses` entry whose id matches `defaultAddress?.id` (or the first
entry), then a `displayName` split. -/
def deriveNameGraphQL (c : GqlCustomer) : Option String × Option String :=
  let firstName := jsOrNone c.firstName
  let lastName := jsOrNone c.lastName
  let firstName :=
    if !truthyStr firstName &&
        truthyStr (match c.defaultAddress with
          | some ad => ad.firstName
          | none => none) then
      match c.defaultAddress with
      | some ad => ad.firstName
      | none => none
    else firstName
  let lastName :=
    if !truthyStr lastName &&
        truthyStr (match c.defaultAddress with
          | some ad => ad.lastName
          | none => none) then
      match c.defaultAddress with
      | some ad => ad.lastName
      | none => none
    else lastName
  let fl1 : Option String × Option String :=
    match c.addresses with
    | some addrs =>
      if (!truthyStr firstName || !truthyStr lastName) && decide (0 < addrs.length) then
        let target : Option String :=
          match c.defaultAddress with
          | some ad => ad.id
          | none => none
        let defaultAddr : Option GqlAddress :=
          match addrs.find? (fun a => decide (a.id = target)) with
          | some a => some a
          | none => addrs.head?
        match defaultAddr with
        | some ad =>
          let f1 := if !truthyStr firstName && truthyStr ad.firstName then ad.firstName else firstName
          let l1 := if !truthyStr lastName && truthyStr ad.lastName then ad.lastName else lastName
          (f1, l1)
        | none => (firstName, lastName)
      else (firstName, lastName)
    | none => (firstName, lastName)
  let fl2 : Option String × Option String :=
    if !truthyStr fl1.1 || !truthyStr fl1.2 then
      match jsOrNone c.displayName with
      | some d =>
        let parts := splitWs d
        if parts.length = 1 then
          (if !truthyStr fl1.1 then parts.head? else fl1.1, fl1.2)
        else if 1 < parts.length then
          let f1 := if !truthyStr fl1.1 then some (joinSpace parts.dropLast) else fl1.1
          let l1 := if !truthyStr fl1.2 then parts.getLast? else fl1.2
          (f1, l1)
        else fl1
      | none => fl1
    else fl1
  (jsOrNone fl2.1, jsOrNone fl2.2)

/-- A GraphQL order line item node. -/
structure GqlLineItem where
  id : String
  title : Option String
  quantity : Int
  originalTotalSet : Option GqlMoneyBag
  deriving DecidableEq

/-- The nested `customer` of a GraphQL order. -/
structure GqlOrderCustomer where
  id : Option String
  deriving DecidableEq

/-- A GraphQL order node. -/
structure GqlOrder where
  id : String
  name : Option String
  customer : Option GqlOrderCustomer
  totalPriceSet : Option GqlMoneyBag
  createdAt : Option String
  lineItems : Option (List GqlLineItem)
  deriving DecidableEq

/-- `x?.shopMoney?.amount || '0'` (string fallback). -/
def moneyAmountOr0 (bag : Option GqlMoneyBag) : String :=
  match bag with
  | some b =>
    match b.shopMoney with
    | some m =>
      match m.amount with
      | some s => if s ≠ "" then s else "0"
      | none => "0"
    | none => "0"
  | none => "0"

/-- The line-item mapping of `fetchOrdersGraphQL`:
`price: parseFloat(item.originalTotalSet?.shopMoney?.amount || '0') / (item.quantity || 1)`. -/
def normalizeLineItemGraphQL (parse : String → JsNum) (it : GqlLineItem) : LineItemRec :=
  let divisor : Int := if it.quantity = 0 then 1 else it.quantity
  let price : JsNum :=
    match parse (moneyAmountOr0 it.originalTotalSet) with
    | .nan => .nan
    | .num q => .num (q / (divisor : Rat))
  ⟨it.id.replace "gid://shopify/LineItem/" "", it.title, it.quantity, price⟩

/-- The order mapping of `fetchOrdersGraphQL` (`shopifyGraphQL.js`): note
that the normalized record carries the fetched `lineItems`. -/
def normalizeOrderGraphQL (parse : String → JsNum) (o : GqlOrder) : OrderRec :=
  ⟨o.id.replace "gid://shopify/Order/" "",
    (match o.customer with
     | some c => jsOrNone (c.id.map (fun s => s.replace "gid://shopify/Customer/" ""))
     | none => none),
    jsOrNone o.name,
    jsOrZeroJ (parse (moneyAmountOr0 o.totalPriceSet)),
    o.createdAt,
    (match o.lineItems with
     | some its => its.map (normalizeLineItemGraphQL parse)
     | none => [])⟩

/-- The whole batched upsert loop over a list of 100-record batches. -/
def genfoldBatches {R K F : Type} [DecidableEq K] (M : TableModel R K F)
    (batches : List (List (K × F))) (tb : List R × Nat) : List R × Nat :=
  batches.foldl (fun acc b => genprocess M b acc) tb

/-- The (key, fields) pair `upsertCustomers` writes for one record. -/
def custPair (t : String) (c : CustRec) : (String × Option String) × CustFields :=
  ((t, c.shopifyId), custDataOf c)

/-- The batches of (key, fields) pairs of one `upsertCustomers` call. -/
def custBatches (t : String) (cs : List CustRec) :
    List (List ((String × Option String) × CustFields)) :=
  (chunks100 cs).map (List.map (custPair t))

/-- The (key, fields) pair `upsertOrders` writes for one record, given the
rows returned by the batched customer lookup. -/
def orderPair (found : List CustomerRow) (t : String) (o : OrderRec) :
    (String × String) × OrderFields :=
  ((t, o.shopifyId), orderDataOf found o)

/-- The batches of (key, fields) pairs of one `upsertOrders` call. -/
def orderBatches (found : List CustomerRow) (t : String) (orders : List OrderRec) :
    List (List ((String × String) × OrderFields)) :=
  (chunks100 orders).map (List.map (orderPair found t))

/-- The table (rows plus id counter) of the customer table of a store. -/
def custTB (s : Store) : List CustomerRow × Nat :=
  (s.customers, s.nextId)

/-- The table (rows plus id counter) of the order table of a store. -/
def orderTB (s : Store) : List OrderRow × Nat :=
  (s.orders, s.nextId)

/-- The operation trace of the customer upsert loop: per batch one
`createMany` then one `updateMany` per record. -/
def custTraceAux (t : String) (batches : List (List CustRec)) : List DbOp :=
  (batches.map (fun b => DbOp.customerCreateMany t b.length ::
    b.map (fun c => DbOp.customerUpdateMany t c.shopifyId))).flatten

/-- The operation trace of the order upsert loop. -/
def orderTraceAux (t : String) (batches : List (List OrderRec)) : List DbOp :=
  (batches.map (fun b => DbOp.orderCreateMany t b.length ::
    b.map (fun o => DbOp.orderUpdateMany t o.shopifyId))).flatten

/-- The rows the batched customer lookup of `upsertOrders` returns (the
lookup is only issued when some order references a customer). -/
def lookupRows (t : String) (orders : List OrderRec) (s : Store) : List CustomerRow :=
  if (referencedCustomerIds orders).length > 0
  then customerLookup t (referencedCustomerIds orders) s
  else []

/-- Is a trace element one of the network fetch operations? -/
def isFetchOp (op : DbOp) : Bool :=
  match op with
  | DbOp.fetchCustomersGraphQL => true
  | DbOp.fetchCustomersRest => true
  | DbOp.fetchProductsGraphQL => true
  | DbOp.fetchOrdersGraphQL => true
  | DbOp.fetchProductsRest => true
  | DbOp.fetchOrdersRest => true
  | _ => false

/-- Is a trace element the batched customer lookup? -/
def isCustFindMany (op : DbOp) : Bool :=
  match op with
  | DbOp.customerFindMany _ _ => true
  | _ => false

/-- A 530-item collection served at page size 250: two full pages with a
`rel="next"` link and a final page of 30 items without one. -/
def chain530 : List (PageResp Nat) :=
  [⟨some ((List.range 530).take 250), true⟩,
   ⟨some (((List.range 530).drop 250).take 250), true⟩,
   ⟨some (((List.range 530).drop 250).drop 250), false⟩]

/-- The empty raw customer: every property absent. -/
def emptyRawCustomer : RawCustomer :=
  ⟨none, none, none, none, none, none, none, none, none, none, none, none⟩

/-! ## Claims -/

/-- **C9.** For every tenant id, calling the customer, product, or order
upsert with an empty record list returns 0, performs no storage operation,
and leaves the store unchanged (the source returns before its first Prisma
call when `xs.length === 0`). -/
theorem upsert_empty_is_noop (t : String) (s : Store) :
    upsertCustomers t [] s = (0, s, []) ∧
    upsertProducts t [] s = (0, s, []) ∧
    upsertOrders t [] s = (0, s, []) :=
  ⟨rfl, rfl, rfl⟩

theorem upsert_empty_is_noop_witness :
    upsertCustomers "tenant-1" [] ⟨[], [], [], [], [], 0⟩ = (0, ⟨[], [], [], [], [], 0⟩, []) :=
  (upsert_empty_is_noop "tenant-1" ⟨[], [], [], [], [], 0⟩).1

/-- **C10.** If no tenant row matches the given id, `syncAll` fails with
`'Tenant not found'` immediately after the tenant lookup: no fetch is
attempted, no table is written, and the store is returned unchanged. -/
theorem syncAll_tenant_not_found (tid : String)
    (gc rc : Except String (List CustRec)) (rp : Except String (List ProdRec))
    (ro : Except String (List OrderRec)) (s : Store)
    (h : s.tenants.find? (fun t => decide (t.id = tid)) = none) :
    syncAll tid gc rc rp ro s =
      ⟨.error "Tenant not found", s, [.tenantFindUnique tid]⟩ := by
  simp only [syncAll, h]

theorem syncAll_tenant_not_found_witness :
    syncAll "t1" (.ok []) (.ok []) (.ok []) (.ok []) ⟨[], [], [], [], [], 0⟩ =
      ⟨.error "Tenant not found", ⟨[], [], [], [], [], 0⟩, [.tenantFindUnique "t1"]⟩ :=
  syncAll_tenant_not_found "t1" (.ok []) (.ok []) (.ok []) (.ok []) ⟨[], [], [], [], [], 0⟩ rfl

/-- **C1 (evidence for the code bug).** Re-syncing an order whose line-item
list changed does *not* replace the stored line items: `upsertOrders` never
reads the record's `lineItems` and never touches the `OrderLineItem` table,
so the stale row stays and the freshly fetched one is not inserted. Here the
stored order `"100"` has stale line item `"li-old"`; the re-fetched record
(the shape `fetchOrdersGraphQL` produces, including a nonempty `lineItems`
list) carries `"li-new"`; after the upsert the line-item table still holds
exactly the stale `"li-old"` row, while the order row itself was updated. -/
theorem upsertOrders_drops_line_items :
    (SyncPipeline.upsertOrders "t1"
        [⟨"100", none, some "1001", .num 60, some "2024-01-02",
          [⟨"li-new", some "New", 2, .num 30⟩]⟩]
        ⟨[], [], [],
          [⟨7, "t1", "100", none, some "1001", .num 50, some "2024-01-01"⟩],
          [⟨8, 7, "li-old", some "Old", 1, .num 50⟩], 9⟩).2.1.lineItems =
      [⟨8, 7, "li-old", some "Old", 1, .num 50⟩] ∧
    (SyncPipeline.upsertOrders "t1"
        [⟨"100", none, some "1001", .num 60, some "2024-01-02",
          [⟨"li-new", some "New", 2, .num 30⟩]⟩]
        ⟨[], [], [],
          [⟨7, "t1", "100", none, some "1001", .num 50, some "2024-01-01"⟩],
          [⟨8, 7, "li-old", some "Old", 1, .num 50⟩], 9⟩).2.1.orders =
      [⟨7, "t1", "100", none, some "1001", .num 60, some "2024-01-02"⟩] := by
  constructor <;> rfl

/-- One step of the wrapper on a throttling response with retry budget
left: sleep `(retryAfter ? retryAfter * 1000 : 2000) + 500` ms and recurse
on the next response with one retry fewer. -/
theorem requestWithRetry_throttled_step {α : Type} (resp : Nat → HttpOutcome α)
    (i n : Nat) (ra : Option Rat) (h : resp i = .failure 429 ra) :
    requestWithRetry resp i (n + 1) =
      ⟨(requestWithRetry resp (i + 1) n).result,
        (requestWithRetry resp (i + 1) n).requests + 1,
        retryWaitMs ra :: (requestWithRetry resp (i + 1) n).sleeps⟩ := by
  simp [requestWithRetry, h]

/-- A successful response returns at once, whatever the remaining budget. -/
theorem requestWithRetry_success {α : Type} (resp : Nat → HttpOutcome α)
    (i n : Nat) (a : α) (h : resp i = .success a) :
    requestWithRetry resp i n = ⟨.ok a, 1, []⟩ := by
  cases n <;> simp [requestWithRetry, h]

/-- A non-throttling failure propagates at once, whatever the remaining
budget: only a 429 is ever retried. -/
theorem requestWithRetry_other_failure {α : Type} (resp : Nat → HttpOutcome α)
    (i n st : Nat) (ra : Option Rat) (hst : st ≠ 429)
    (h : resp i = .failure st ra) :
    requestWithRetry resp i n = ⟨.error (st, ra), 1, []⟩ := by
  cases n <;> simp [requestWithRetry, h, hst]

/-- A throttling failure with no budget left propagates. -/
theorem requestWithRetry_exhausted {α : Type} (resp : Nat → HttpOutcome α)
    (i : Nat) (ra : Option Rat) (h : resp i = .failure 429 ra) :
    requestWithRetry resp i 0 = ⟨.error (429, ra), 1, []⟩ := by
  simp [requestWithRetry, h]

/-- **C6.** The retry wrapper (default budget `retries = 3`) retries iff
the failure is a 429 and the budget is not exhausted, sleeping the
server-suggested wait (ms) plus a 500 ms buffer when a `retry-after` header
is present and `2000 + 500` ms otherwise. Conjuncts: (1) three consecutive
429s followed by a success yield the success after 4 requests (3 retries)
and 3 sleeps; (2) four consecutive 429s exhaust the budget and propagate
the 429 after 4 requests; (3) any non-429 failure (in particular 401 and
403) propagates after a single request with no retry. -/
theorem requestWithRetry_spec {α : Type} :
    (∀ (resp : Nat → HttpOutcome α) (ra : Option Rat) (a : α),
        (∀ i, i < 3 → resp i = .failure 429 ra) → resp 3 = .success a →
        requestWithRetry resp 0 3 = ⟨.ok a, 4, List.replicate 3 (retryWaitMs ra)⟩) ∧
    (∀ (resp : Nat → HttpOutcome α) (ra : Option Rat),
        (∀ i, i ≤ 3 → resp i = .failure 429 ra) →
        requestWithRetry resp 0 3 =
          ⟨.error (429, ra), 4, List.replicate 3 (retryWaitMs ra)⟩) ∧
    (∀ (resp : Nat → HttpOutcome α) (st : Nat) (ra : Option Rat),
        st ≠ 429 → resp 0 = .failure st ra →
        requestWithRetry resp 0 3 = ⟨.error (st, ra), 1, []⟩) := by
  refine ⟨?_, ?_, ?_⟩
  · intro resp ra a h hs
    rw [requestWithRetry_throttled_step resp 0 2 ra (h 0 (by norm_num)),
      requestWithRetry_throttled_step resp 1 1 ra (h 1 (by norm_num)),
      requestWithRetry_throttled_step resp 2 0 ra (h 2 (by norm_num)),
      requestWithRetry_success resp 3 0 a hs]
    simp [List.replicate]
  · intro resp ra h
    rw [requestWithRetry_throttled_step resp 0 2 ra (h 0 (by norm_num)),
      requestWithRetry_throttled_step resp 1 1 ra (h 1 (by norm_num)),
      requestWithRetry_throttled_step resp 2 0 ra (h 2 (by norm_num)),
      requestWithRetry_exhausted resp 3 ra (h 3 (by norm_num))]
    simp [List.replicate]
  · intro resp st ra hst h
    exact requestWithRetry_other_failure resp 0 3 st ra hst h

theorem requestWithRetry_spec_witness :
    requestWithRetry (fun i => if i < 3 then .failure 429 (some 4) else .success (42 : Nat)) 0 3 =
      ⟨.ok 42, 4, List.replicate 3 (retryWaitMs (some 4))⟩ ∧
    requestWithRetry (fun _ => (HttpOutcome.failure 429 none : HttpOutcome Nat)) 0 3 =
      ⟨.error ((429 : Nat), (none : Option Rat)), 4, List.replicate 3 (retryWaitMs none)⟩ ∧
    requestWithRetry (fun _ => (HttpOutcome.failure 401 none : HttpOutcome Nat)) 0 3 =
      ⟨.error ((401 : Nat), (none : Option Rat)), 1, []⟩ := by
  refine ⟨?_, ?_, ?_⟩
  · exact (requestWithRetry_spec.1 _ (some 4) 42
      (fun i hi => by interval_cases i <;> rfl) rfl)
  · exact (requestWithRetry_spec.2.1 _ none (fun i _ => rfl))
  · exact (requestWithRetry_spec.2.2 _ 401 none (by norm_num) rfl)

/-- **C5.** The pagination fetcher concatenates every page's item array and
follows the continuation link until none remains. Conjuncts: (1) on any
well-formed response chain it returns the concatenation of all pages' items
and issues exactly one request per page — the iteration count depends only
on the page structure, never on the record count; (2) a 530-item collection
at page size 250 is fetched in exactly 3 requests and returns all 530
records; (3) an empty first page is a valid terminal result, not an
error. -/
theorem fetchAllResources_spec :
    (∀ {α : Type} (chain : List (PageResp α)), WFChain chain →
        fetchAllResources chain = ((chain.map pageItems).flatten, chain.length)) ∧
    fetchAllResources chain530 = (List.range 530, 3) ∧
    fetchAllResources [(⟨some [], false⟩ : PageResp Nat)] = ([], 1) := by
  have hgen : ∀ {α : Type} (chain : List (PageResp α)), WFChain chain →
      fetchAllResources chain = ((chain.map pageItems).flatten, chain.length) := by
    intro α chain h
    induction h with
    | last p hp =>
      simp [fetchAllResources, hp, pageItems]
    | cons p rest hp _ ih =>
      simp [fetchAllResources, hp, pageItems, ih]
  refine ⟨hgen, ?_, ?_⟩
  · rw [hgen chain530 (by
      refine WFChain.cons _ _ rfl (WFChain.cons _ _ rfl (WFChain.last _ rfl)))]
    simp only [chain530, pageItems, List.map, List.flatten, List.append_nil]
    rw [List.take_append_drop, List.take_append_drop]
    rfl
  · simp [fetchAllResources]

theorem fetchAllResources_spec_witness :
    fetchAllResources [(⟨some [1, 2], true⟩ : PageResp Nat), ⟨some [3], false⟩] = ([1, 2, 3], 2) := by
  rw [fetchAllResources_spec.1 _ (WFChain.cons _ _ rfl (WFChain.last _ rfl))]
  rfl

end SyncPipeline

namespace SyncPipeline

theorem dnpDefaultAddress_fst (c : RawCustomer) (fl : Option String × Option String)
    (h : truthyStr fl.1 = true) : (dnpDefaultAddress c fl).1 = fl.1 := by
  unfold dnpDefaultAddress
  cases c.default_address <;> simp [h] <;> split <;> rfl

theorem dnpDefaultAddress_snd (c : RawCustomer) (fl : Option String × Option String)
    (h : truthyStr fl.2 = true) : (dnpDefaultAddress c fl).2 = fl.2 := by
  unfold dnpDefaultAddress
  cases c.default_address <;> simp [h] <;> split <;> rfl

theorem dnpAddresses_fst (c : RawCustomer) (fl : Option String × Option String)
    (h : truthyStr fl.1 = true) : (dnpAddresses c fl).1 = fl.1 := by
  unfold dnpAddresses
  cases c.addresses with
  | none => rfl
  | some addrs =>
    simp only [h]
    split <;> try rfl
    split <;> simp [h]

theorem dnpAddresses_snd (c : RawCustomer) (fl : Option String × Option String)
    (h : truthyStr fl.2 = true) : (dnpAddresses c fl).2 = fl.2 := by
  unfold dnpAddresses
  cases c.addresses with
  | none => rfl
  | some addrs =>
    simp only [h]
    split <;> try rfl
    split <;> simp [h]

theorem dnpDisplayName_fst (c : RawCustomer) (fl : Option String × Option String)
    (h : truthyStr fl.1 = true) : (dnpDisplayName c fl).1 = fl.1 := by
  simp only [dnpDisplayName, h]
  repeat' split
  all_goals simp_all

theorem dnpDisplayName_snd (c : RawCustomer) (fl : Option String × Option String)
    (h : truthyStr fl.2 = true) : (dnpDisplayName c fl).2 = fl.2 := by
  simp only [dnpDisplayName, h]
  repeat' split
  all_goals simp_all

/-- Every token produced by `splitWsAux` is a nonempty string. -/
theorem splitWsAux_ne_empty (cs : List Char) :
    ∀ (acc : List Char) (x : String), x ∈ splitWsAux acc cs → x ≠ "" := by
  induction cs with
  | nil =>
    intro acc x hx
    simp only [splitWsAux] at hx
    split at hx
    · simp at hx
    · rename_i hacc
      simp only [List.mem_singleton] at hx
      subst hx
      intro hcon
      apply hacc
      have : (String.mk acc.reverse).data = ("" : String).data := by rw [hcon]
      simpa using this
  | cons c cs ih =>
    intro acc x hx
    simp only [splitWsAux] at hx
    split at hx
    · split at hx
      · exact ih [] x hx
      · rename_i hacc
        rcases List.mem_cons.mp hx with h1 | h1
        · subst h1
          intro hcon
          apply hacc
          have : (String.mk acc.reverse).data = ("" : String).data := by rw [hcon]
          simpa using this
        · exact ih [] x h1
    · exact ih (c :: acc) x hx

/-- Every token of `splitWs` is nonempty. -/
theorem splitWs_ne_empty (s : String) (x : String) (hx : x ∈ splitWs s) : x ≠ "" :=
  splitWsAux_ne_empty s.data [] x hx

/-- Joining nonempty strings over a nonempty list is nonempty. -/
theorem joinSpace_ne_empty (l : List String) (hne : l ≠ [])
    (h : ∀ x ∈ l, x ≠ "") : joinSpace l ≠ "" := by
  match l with
  | [] => exact absurd rfl hne
  | [x] =>
    simpa [joinSpace] using h x (by simp)
  | x :: y :: t =>
    simp only [joinSpace]
    intro hcon
    have hlen : (x ++ " " ++ joinSpace (y :: t)).length = 0 := by
      rw [hcon]; rfl
    rw [String.length_append, String.length_append] at hlen
    have hsp : (" " : String).length = 1 := rfl
    omega

/-- **C7 (counterexample).** The claimed precedence (explicit fields, then
default-address, then display-name split) is incomplete: between the
default-address and the display-name steps the source also consults the
`addresses` array. For a record whose only name sources are an `addresses`
entry `{first_name: "X"}` and the display name `"Y Z"`, the claim predicts
firstName `"Y"` (all-but-last of the display name), but the code derives
firstName `"X"` from the addresses entry. -/
theorem deriveNameParts_addresses_step :
    (deriveNameParts (some { emptyRawCustomer with
        addresses := some [some ⟨some "X", none, none, none, none, none, none⟩],
        display_name := some "Y Z" })).1 = some "X" ∧
    (deriveNameParts (some { emptyRawCustomer with
        addresses := some [some ⟨some "X", none, none, none, none, none, none⟩],
        display_name := some "Y Z" })).1 ≠ some "Y" := by
  refine ⟨rfl, by decide⟩

/-- **C7 (amended).** Name-derivation precedence of the Normalizer, first match wins:
(1) explicit top-level first/last-name fields; (2) the default-address
sub-object (with the REST spelling checked before the GraphQL spelling);
(3) a display-name split where a single token becomes firstName only and
several tokens become firstName = all-but-last joined, lastName = last
token — with one extra source the original claim omits: between (2) and
(3) the `addresses` array is consulted (the entry flagged default, else the
first entry, REST keys only). Conjuncts 1–2: step (1) for first resp. last
name. Conjuncts 3–4: step (2). Conjunct 5: the addresses-array step.
Conjuncts 6–7: step (3), single- and multi-token (for records without an
addresses array). Conjuncts 8–9:
the two spec scenarios (`{default_address: {firstName: "Jane"}}` and
display name `"John Q Public"`) on the REST derivation; conjuncts 9–10: the
same scenarios on the GraphQL client's inline derivation. -/
theorem deriveNameParts_precedence :
    (∀ c : RawCustomer, truthyStr c.first_name = true →
        (deriveNameParts (some c)).1 = c.first_name) ∧
    (∀ c : RawCustomer, truthyStr c.last_name = true →
        (deriveNameParts (some c)).2 = c.last_name) ∧
    (∀ (c : RawCustomer) (ad : RawAddress), truthyStr c.first_name = false →
        truthyStr c.firstName = false → c.default_address = some ad →
        truthyStr ad.first_name = true →
        (deriveNameParts (some c)).1 = ad.first_name) ∧
    (∀ (c : RawCustomer) (ad : RawAddress), truthyStr c.first_name = false →
        truthyStr c.firstName = false → c.default_address = some ad →
        truthyStr ad.first_name = false → truthyStr ad.firstName = true →
        (deriveNameParts (some c)).1 = ad.firstName) ∧
    (∀ (c : RawCustomer) (ad : RawAddress), truthyStr c.first_name = false →
        truthyStr c.firstName = false → c.default_address = none →
        c.addresses = some [some ad] → truthyStr ad.first_name = true →
        (deriveNameParts (some c)).1 = ad.first_name) ∧
    (∀ (c : RawCustomer) (d x : String), truthyStr c.first_name = false →
        truthyStr c.firstName = false → truthyStr c.last_name = false →
        truthyStr c.lastName = false → c.default_address = none →
        c.addresses = none → c.display_name = some d → splitWs d = [x] →
        deriveNameParts (some c) = (some x, none)) ∧
    (∀ (c : RawCustomer) (d : String), truthyStr c.first_name = false →
        truthyStr c.firstName = false → truthyStr c.last_name = false →
        truthyStr c.lastName = false → c.default_address = none →
        c.addresses = none → c.display_name = some d →
        1 < (splitWs d).length →
        deriveNameParts (some c) =
          (some (joinSpace (splitWs d).dropLast), (splitWs d).getLast?)) ∧
    deriveNameParts (some { emptyRawCustomer with
      default_address := some ⟨none, none, some "Jane", none, none, none, none⟩ }) =
      (some "Jane", none) ∧
    deriveNameParts (some { emptyRawCustomer with display_name := some "John Q Public" }) =
      (some "John Q", some "Public") ∧
    deriveNameGraphQL ⟨some "gid", none, none, none, none, none,
      some ⟨some "a1", some "Jane", none, none⟩, none⟩ = (some "Jane", none) ∧
    deriveNameGraphQL ⟨some "gid", none, none, some "John Q Public", none, none,
      none, none⟩ = (some "John Q", some "Public") := by
  have step234_fst : ∀ (c : RawCustomer) (fl : Option String × Option String),
      truthyStr fl.1 = true →
      (dnpDisplayName c (dnpAddresses c (dnpDefaultAddress c fl))).1 = fl.1 := by
    intro c fl h
    rw [dnpDisplayName_fst, dnpAddresses_fst, dnpDefaultAddress_fst _ _ h]
    · rw [dnpDefaultAddress_fst _ _ h]; exact h
    · rw [dnpAddresses_fst, dnpDefaultAddress_fst _ _ h]
      · exact h
      · rw [dnpDefaultAddress_fst _ _ h]; exact h
  have step234_snd : ∀ (c : RawCustomer) (fl : Option String × Option String),
      truthyStr fl.2 = true →
      (dnpDisplayName c (dnpAddresses c (dnpDefaultAddress c fl))).2 = fl.2 := by
    intro c fl h
    rw [dnpDisplayName_snd, dnpAddresses_snd, dnpDefaultAddress_snd _ _ h]
    · rw [dnpDefaultAddress_snd _ _ h]; exact h
    · rw [dnpAddresses_snd, dnpDefaultAddress_snd _ _ h]
      · exact h
      · rw [dnpDefaultAddress_snd _ _ h]; exact h
  have step34_fst : ∀ (c : RawCustomer) (fl : Option String × Option String),
      truthyStr fl.1 = true →
      (dnpDisplayName c (dnpAddresses c fl)).1 = fl.1 := by
    intro c fl h
    rw [dnpDisplayName_fst, dnpAddresses_fst _ _ h]
    rw [dnpAddresses_fst _ _ h]; exact h
  refine ⟨?_, ?_, ?_, ?_, ?_, ?_, ?_, by rfl, by rfl, by rfl, by rfl⟩
  · intro c h
    have h1 : (dnpTopLevel c).1 = c.first_name := by simp [dnpTopLevel, h]
    have h2 : truthyStr (dnpTopLevel c).1 = true := by rw [h1]; exact h
    simp only [deriveNameParts]
    rw [step234_fst c _ h2, h1, jsOrNone, h]
    simp
  · intro c h
    have h1 : (dnpTopLevel c).2 = c.last_name := by simp [dnpTopLevel, h]
    have h2 : truthyStr (dnpTopLevel c).2 = true := by rw [h1]; exact h
    simp only [deriveNameParts]
    rw [step234_snd c _ h2, h1, jsOrNone, h]
    simp
  · intro c ad hf1 hf2 hda had
    have h1 : (dnpTopLevel c).1 = none := by simp [dnpTopLevel, hf1, hf2]
    have h2 : (dnpDefaultAddress c (dnpTopLevel c)).1 = ad.first_name := by
      have htn : truthyStr (none : Option String) = false := rfl
      simp [dnpDefaultAddress, hda, h1, had, htn]
    have h3 : truthyStr (dnpDefaultAddress c (dnpTopLevel c)).1 = true := by
      rw [h2]; exact had
    simp only [deriveNameParts]
    rw [step34_fst c _ h3, h2, jsOrNone, had]
    simp
  · intro c ad hf1 hf2 hda had1 had2
    have h1 : (dnpTopLevel c).1 = none := by simp [dnpTopLevel, hf1, hf2]
    have h2 : (dnpDefaultAddress c (dnpTopLevel c)).1 = ad.firstName := by
      have htn : truthyStr (none : Option String) = false := rfl
      simp [dnpDefaultAddress, hda, h1, had1, had2, htn]
    have h3 : truthyStr (dnpDefaultAddress c (dnpTopLevel c)).1 = true := by
      rw [h2]; exact had2
    simp only [deriveNameParts]
    rw [step34_fst c _ h3, h2, jsOrNone, had2]
    simp
  · intro c ad hf1 hf2 hda haddr had
    have htn : truthyStr none = false := rfl
    have h1 : (dnpTopLevel c).1 = none := by simp [dnpTopLevel, hf1, hf2]
    have h2 : dnpDefaultAddress c (dnpTopLevel c) = dnpTopLevel c := by
      simp [dnpDefaultAddress, hda]
    have h3 : (dnpAddresses c (dnpTopLevel c)).1 = ad.first_name := by
      by_cases hdflag : ad.isDefault = some true <;>
        simp [dnpAddresses, haddr, h1, had, htn, hdflag]
    have h4 : truthyStr (dnpAddresses c (dnpDefaultAddress c (dnpTopLevel c))).1 = true := by
      rw [h2, h3]
      exact had
    simp only [deriveNameParts]
    rw [dnpDisplayName_fst _ _ h4, h2, h3, jsOrNone, had]
    simp
  · intro c d x hf1 hf2 hl1 hl2 hda haddr hd hsplit
    have hdne : d ≠ "" := by
      intro hcon
      subst hcon
      simp [splitWs, splitWsAux] at hsplit
    have hxne : x ≠ "" := splitWs_ne_empty d x (by rw [hsplit]; simp)
    have h1 : dnpTopLevel c = (none, none) := by
      simp [dnpTopLevel, hf1, hf2, hl1, hl2]
    have h2 : dnpDefaultAddress c (none, none) = (none, none) := by
      simp [dnpDefaultAddress, hda]
    have h3 : dnpAddresses c (none, none) = (none, none) := by
      simp [dnpAddresses, haddr]
    have h4 : dnpDisplayName c (none, none) = (some x, none) := by
      have htn : truthyStr none = false := rfl
      simp only [dnpDisplayName, htn, Bool.not_false, Bool.true_or, if_true]
      have hdisp : (if truthyStr c.display_name = true then c.display_name
          else if truthyStr c.name = true then c.name
          else match c.default_address with
            | some ad => if truthyStr ad.name = true then ad.name else none
            | none => none) = some d := by
        rw [hd]
        simp [truthyStr, hdne]
      rw [hdisp]
      simp [hsplit]
    simp only [deriveNameParts]
    rw [h1, h2, h3, h4]
    simp [jsOrNone, truthyStr, hxne]
  · intro c d hf1 hf2 hl1 hl2 hda haddr hd hlen
    have hdne : d ≠ "" := by
      intro hcon
      subst hcon
      simp [splitWs, splitWsAux] at hlen
    have hpne : splitWs d ≠ [] := by
      intro hcon
      rw [hcon] at hlen
      simp at hlen
    obtain ⟨lastTok, hlast⟩ : ∃ lt, (splitWs d).getLast? = some lt :=
      ⟨(splitWs d).getLast hpne, List.getLast?_eq_getLast _ hpne⟩
    have heqlast : lastTok = (splitWs d).getLast hpne := by
      have h5 := List.getLast?_eq_getLast (splitWs d) hpne
      rw [hlast] at h5
      exact Option.some_injective _ h5
    have hlastmem : lastTok ∈ splitWs d := heqlast ▸ List.getLast_mem hpne
    have hlastne : lastTok ≠ "" := splitWs_ne_empty d lastTok hlastmem
    have hdlne : (splitWs d).dropLast ≠ [] := by
      intro hcon
      have : (splitWs d).dropLast.length = 0 := by rw [hcon]; rfl
      rw [List.length_dropLast] at this
      omega
    have hjoin : joinSpace (splitWs d).dropLast ≠ "" := by
      refine joinSpace_ne_empty _ hdlne ?_
      intro y hy
      exact splitWs_ne_empty d y (List.dropLast_subset _ hy)
    have h1 : dnpTopLevel c = (none, none) := by
      simp [dnpTopLevel, hf1, hf2, hl1, hl2]
    have h2 : dnpDefaultAddress c (none, none) = (none, none) := by
      simp [dnpDefaultAddress, hda]
    have h3 : dnpAddresses c (none, none) = (none, none) := by
      simp [dnpAddresses, haddr]
    have h4 : dnpDisplayName c (none, none) =
        (some (joinSpace (splitWs d).dropLast), (splitWs d).getLast?) := by
      have htn : truthyStr none = false := rfl
      simp only [dnpDisplayName, htn, Bool.not_false, Bool.true_or, if_true]
      have hdisp : (if truthyStr c.display_name = true then c.display_name
          else if truthyStr c.name = true then c.name
          else match c.default_address with
            | some ad => if truthyStr ad.name = true then ad.name else none
            | none => none) = some d := by
        rw [hd]
        simp [truthyStr, hdne]
      rw [hdisp]
      have hne1 : ¬(splitWs d).length = 1 := by omega
      simp [hne1, hlen, hlast, hjoin, hlastne]
    simp only [deriveNameParts]
    rw [h1, h2, h3, h4, hlast]
    simp [jsOrNone, truthyStr, hjoin, hlastne]

theorem deriveNameParts_precedence_witness :
    (deriveNameParts (some { emptyRawCustomer with first_name := some "Ann" })).1 = some "Ann" :=
  deriveNameParts_precedence.1 _ rfl

/-- **C8 (counterexample).** The claim "price normalizes to 0 whenever the
source value is missing or unparseable" fails on the REST product
normalizer: `price: product.variants?.[0]?.price ? parseFloat(...) : 0` has
no `|| 0` guard, so for a product whose first variant carries the
unparseable price string `"abc"` (`parseFloat("abc")` is `NaN`) the
normalized price is `NaN`, not `0`. -/
theorem normalizeProduct_nan_price :
    (normalizeProduct (fun _ => JsNum.nan) ⟨1, none, none, none, some [⟨some "abc"⟩]⟩).price =
      JsNum.nan ∧
    (normalizeProduct (fun _ => JsNum.nan) ⟨1, none, none, none, some [⟨some "abc"⟩]⟩).price ≠
      JsNum.num 0 := by
  constructor
  · rfl
  · decide

/-- **C8 (amended).** Normalization is total and never raises on missing
optional structure: absent non-numeric data degrades to `null` and the
numeric fields default to 0 as follows — `totalSpent` and `totalPrice`
normalize to 0 whenever missing *or* unparseable (they carry an `|| 0`
guard); the REST product `price` normalizes to 0 when missing (no variant,
no first-variant price, or a falsy price string), while a present but
unparseable price propagates the raw `parseFloat` result (`NaN`, see the
counterexample). Conjuncts: 1–2 `totalSpent` missing/unparseable; 3–4
`totalPrice` missing/unparseable; 5–7 product `price` missing (no
`variants`, empty `variants`, absent first-variant price); 8–11 the
normalizers on `null`/all-absent raw records produce the all-default
canonical record. -/
theorem normalizer_total_defaults :
    (∀ (parse : String → JsNum) (c : RawCustomer),
        truthyStr c.total_spent = false → truthyStr c.totalSpent = false →
        (normalizeCustomer parse (some c)).totalSpent = .num 0) ∧
    (∀ (parse : String → JsNum) (c : RawCustomer), (∀ s, parse s = .nan) →
        (normalizeCustomer parse (some c)).totalSpent = .num 0) ∧
    (∀ (parse : String → JsNum) (o : RawOrder), o.total_price = none →
        (normalizeOrder parse o).totalPrice = .num 0) ∧
    (∀ (parse : String → JsNum) (o : RawOrder), (∀ s, parse s = .nan) →
        (normalizeOrder parse o).totalPrice = .num 0) ∧
    (∀ (parse : String → JsNum) (p : RawProduct), p.variants = none →
        (normalizeProduct parse p).price = .num 0) ∧
    (∀ (parse : String → JsNum) (p : RawProduct), p.variants = some [] →
        (normalizeProduct parse p).price = .num 0) ∧
    (∀ (parse : String → JsNum) (p : RawProduct) (vs : List RawVariant),
        p.variants = some (⟨none⟩ :: vs) →
        (normalizeProduct parse p).price = .num 0) ∧
    (∀ parse : String → JsNum,
        normalizeCustomer parse none = ⟨none, none, none, none, .num 0⟩) ∧
    (∀ parse : String → JsNum,
        normalizeCustomer parse (some emptyRawCustomer) = ⟨none, none, none, none, .num 0⟩) ∧
    (∀ parse : String → JsNum,
        normalizeProduct parse ⟨1, none, none, none, none⟩ = ⟨"1", none, none, none, .num 0⟩) ∧
    (∀ parse : String → JsNum,
        normalizeOrder parse ⟨1, none, none, none, none⟩ = ⟨"1", none, none, .num 0, none, []⟩) := by
  refine ⟨?_, ?_, ?_, ?_, ?_, ?_, ?_, fun _ => rfl, fun _ => rfl, fun _ => rfl, fun _ => rfl⟩
  · intro parse c h1 h2
    simp [normalizeCustomer, h1, h2]
  · intro parse c hp
    simp only [normalizeCustomer]
    cases hts : c.total_spent with
    | none => cases hts2 : c.totalSpent <;>
        simp_all [truthyStr, parseFloatOpt, jsOrZeroJ]
    | some s => cases hts2 : c.totalSpent <;>
        simp_all [truthyStr, parseFloatOpt, jsOrZeroJ] <;> split <;> simp [hp, jsOrZeroJ]
  · intro parse o h
    simp [normalizeOrder, h, parseFloatOpt, jsOrZeroJ]
  · intro parse o hp
    cases h : o.total_price <;> simp [normalizeOrder, h, parseFloatOpt, jsOrZeroJ, hp]
  · intro parse p h
    simp [normalizeProduct, h, truthyStr]
  · intro parse p h
    simp [normalizeProduct, h, truthyStr]
  · intro parse p vs h
    simp [normalizeProduct, h, truthyStr]

theorem normalizer_total_defaults_witness :
    (normalizeCustomer (fun _ => JsNum.nan) (some emptyRawCustomer)).totalSpent = .num 0 :=
  normalizer_total_defaults.1 _ emptyRawCustomer rfl rfl

/-! ### Generic facts about the keyed-table operations -/

variable {R K F : Type}

/-- A list of length at most one that is nonempty is a singleton. -/
theorem eq_singleton_of_len_le_one {α : Type} {l : List α}
    (h1 : l.length ≤ 1) (h2 : l ≠ []) : ∃ a, l = [a] := by
  match l with
  | [] => exact absurd rfl h2
  | [a] => exact ⟨a, rfl⟩
  | a :: b :: t => simp at h1

/-- A `skipDuplicates` insertion whose key already has a row changes
nothing. -/
theorem genrows_geninsert_existing [DecidableEq K] (M : TableModel R K F)
    {k : K} {f : F} {tb : List R × Nat} (h : genrows M k tb ≠ []) (kq : K) :
    genrows M kq (geninsert M k f tb) = genrows M kq tb := by
  have hany : (tb.1.any fun r => decide (M.kf r = k)) = true := by
    cases hb : tb.1.any fun r => decide (M.kf r = k) with
    | true => rfl
    | false =>
      exact absurd (List.filter_eq_nil_iff.mpr fun a ha =>
        by simpa using List.any_eq_false.mp hb a ha) h
  simp [geninsert, hany]

/-- A `skipDuplicates` insertion whose key has no row appends exactly one
fresh row with the requested key and fields; other keys are untouched. -/
theorem genrows_geninsert_new [DecidableEq K] (M : TableModel R K F) (L : M.Lawful)
    {k : K} {f : F} {tb : List R × Nat} (h : genrows M k tb = []) :
    genrows M k (geninsert M k f tb) = [M.mkR tb.2 k f] ∧
    ∀ kq, kq ≠ k → genrows M kq (geninsert M k f tb) = genrows M kq tb := by
  have hany : (tb.1.any fun r => decide (M.kf r = k)) = false := by
    rw [List.any_eq_false]
    intro r hr
    simpa using fun hcon => (List.ne_nil_of_mem (List.mem_filter.mpr
      ⟨hr, by simpa using hcon⟩)) h
  constructor
  · have hfil : List.filter (fun r => decide (M.kf r = k)) tb.1 = [] := h
    simp [geninsert, hany, genrows, List.filter_append, hfil, L.kf_mk]
  · intro kq hkq
    have hfil2 : List.filter (fun r => decide (M.kf r = kq)) [M.mkR tb.2 k f] = [] := by
      simp [L.kf_mk]
      intro hcon
      exact hkq hcon.symm
    simp [geninsert, hany, genrows, List.filter_append, hfil2]

/-- Effect of one single-key `updateMany` on the rows of any key. -/
theorem genrows_genupdate [DecidableEq K] (M : TableModel R K F) (L : M.Lawful)
    (k kq : K) (f : F) (tb : List R × Nat) :
    genrows M kq (genupdate M k f tb) =
      if kq = k then (genrows M k tb).map (M.setF f) else genrows M kq tb := by
  have main : ∀ rows : List R,
      List.filter (fun r => decide (M.kf r = kq))
        (rows.map (fun r => if M.kf r = k then M.setF f r else r)) =
      if kq = k then (rows.filter (fun r => decide (M.kf r = k))).map (M.setF f)
      else rows.filter (fun r => decide (M.kf r = kq)) := by
    intro rows
    induction rows with
    | nil => by_cases hk : kq = k <;> simp [hk]
    | cons r rows ih =>
      by_cases hk : kq = k
      · subst hk
        by_cases hr : M.kf r = kq
        · simp [List.filter_cons, hr, L.kf_set, ih]
        · simp [List.filter_cons, hr, ih]
      · have hk2 : ¬k = kq := fun hcon => hk hcon.symm
        by_cases hr : M.kf r = kq
        · have hrk : ¬M.kf r = k := by rw [hr]; exact hk
          simp [List.filter_cons, hr, hrk, hk, hk2, ih]
        · by_cases hrk : M.kf r = k
          · simp [List.filter_cons, hr, hrk, hk, hk2, ih, L.kf_set]
          · simp [List.filter_cons, hr, hrk, hk, hk2, ih]
  unfold genupdate genrows
  exact main tb.1

/-- `createMany` does not touch keys outside the batch. -/
theorem gencreateMany_frame [DecidableEq K] (M : TableModel R K F) (L : M.Lawful)
    (b : List (K × F)) (k : K) :
    ∀ tb, k ∉ b.map Prod.fst → genrows M k (gencreateMany M b tb) = genrows M k tb := by
  induction b with
  | nil => intro tb _; rfl
  | cons p b ih =>
    intro tb hk
    have hk1 : k ≠ p.1 := fun hcon => hk (by simp [hcon])
    have hk2 : k ∉ b.map Prod.fst := fun hcon => hk (by simp [hcon])
    show genrows M k (gencreateMany M b (geninsert M p.1 p.2 tb)) = _
    rw [ih _ hk2]
    by_cases hnil : genrows M p.1 tb = []
    · exact (genrows_geninsert_new M L hnil).2 k hk1
    · exact genrows_geninsert_existing M hnil k

/-- After `createMany`, every key of the batch has at least one row, and
existing rows never disappear. -/
theorem gencreateMany_ne_nil [DecidableEq K] (M : TableModel R K F) (L : M.Lawful)
    (b : List (K × F)) (k : K) :
    ∀ tb, (k ∈ b.map Prod.fst ∨ genrows M k tb ≠ []) →
      genrows M k (gencreateMany M b tb) ≠ [] := by
  induction b with
  | nil =>
    intro tb h
    rcases h with h | h
    · simp at h
    · exact h
  | cons p b ih =>
    intro tb h
    show genrows M k (gencreateMany M b (geninsert M p.1 p.2 tb)) ≠ []
    have hstep : k ∈ b.map Prod.fst ∨ genrows M k (geninsert M p.1 p.2 tb) ≠ [] := by
      rcases h with h | h
      · rcases (by simpa using h : k = p.1 ∨ k ∈ b.map Prod.fst) with h1 | h1
        · right
          rw [h1]
          by_cases hnil : genrows M p.1 tb = []
          · rw [(genrows_geninsert_new M L hnil).1]
            simp
          · rw [genrows_geninsert_existing M hnil p.1]
            exact hnil
        · left
          exact h1
      · right
        by_cases hnil : genrows M p.1 tb = []
        · by_cases hk : k = p.1
          · rw [hk] at h
            exact absurd hnil h
          · rw [(genrows_geninsert_new M L hnil).2 k hk]
            exact h
        · rw [genrows_geninsert_existing M hnil k]
          exact h
    exact ih _ hstep

/-- `createMany` keeps every key's row count at most one. -/
theorem gencreateMany_wf [DecidableEq K] (M : TableModel R K F) (L : M.Lawful)
    (b : List (K × F)) :
    ∀ tb, (∀ kq, (genrows M kq tb).length ≤ 1) →
      ∀ kq, (genrows M kq (gencreateMany M b tb)).length ≤ 1 := by
  induction b with
  | nil => intro tb h kq; exact h kq
  | cons p b ih =>
    intro tb h kq
    refine ih _ ?_ kq
    intro kq2
    by_cases hnil : genrows M p.1 tb = []
    · by_cases hk : kq2 = p.1
      · subst hk
        rw [(genrows_geninsert_new M L hnil).1]
        simp
      · rw [(genrows_geninsert_new M L hnil).2 kq2 hk]
        exact h kq2
    · rw [genrows_geninsert_existing M hnil kq2]
      exact h kq2

/-- The per-record `updateMany` pass does not touch keys outside the
batch. -/
theorem genupdateBatch_frame [DecidableEq K] (M : TableModel R K F) (L : M.Lawful)
    (b : List (K × F)) (k : K) :
    ∀ tb, k ∉ b.map Prod.fst → genrows M k (genupdateBatch M b tb) = genrows M k tb := by
  induction b with
  | nil => intro tb _; rfl
  | cons p b ih =>
    intro tb hk
    have hk1 : k ≠ p.1 := fun hcon => hk (by simp [hcon])
    have hk2 : k ∉ b.map Prod.fst := fun hcon => hk (by simp [hcon])
    show genrows M k (genupdateBatch M b (genupdate M p.1 p.2 tb)) = _
    rw [ih _ hk2, genrows_genupdate M L p.1 k p.2 tb, if_neg hk1]

/-- The per-record `updateMany` pass preserves every key's row count. -/
theorem genupdateBatch_len [DecidableEq K] (M : TableModel R K F) (L : M.Lawful)
    (b : List (K × F)) :
    ∀ tb kq, (genrows M kq (genupdateBatch M b tb)).length = (genrows M kq tb).length := by
  induction b with
  | nil => intro tb kq; rfl
  | cons p b ih =>
    intro tb kq
    show (genrows M kq (genupdateBatch M b (genupdate M p.1 p.2 tb))).length = _
    rw [ih _ kq, genrows_genupdate M L p.1 kq p.2 tb]
    split
    · rename_i hkq
      subst hkq
      exact List.length_map _ _
    · rfl

/-- With pairwise-distinct keys in the batch, the `updateMany` pass leaves
each batch key's rows equal to the previous rows with fields overwritten. -/
theorem genupdateBatch_last [DecidableEq K] (M : TableModel R K F) (L : M.Lawful)
    (b : List (K × F)) (p : K × F) :
    ∀ tb, (b.map Prod.fst).Nodup → p ∈ b →
      genrows M p.1 (genupdateBatch M b tb) = (genrows M p.1 tb).map (M.setF p.2) := by
  induction b with
  | nil => intro tb _ hp; exact absurd hp (List.not_mem_nil p)
  | cons q b ih =>
    intro tb hnd hp
    have hq : q.1 ∉ b.map Prod.fst := (List.nodup_cons.mp hnd).1
    have hnd2 : (b.map Prod.fst).Nodup := (List.nodup_cons.mp hnd).2
    rcases List.mem_cons.mp hp with h1 | h1
    · subst h1
      show genrows M p.1 (genupdateBatch M b (genupdate M p.1 p.2 tb)) = _
      rw [genupdateBatch_frame M L b p.1 _ hq, genrows_genupdate M L p.1 p.1 p.2 tb, if_pos rfl]
    · have hp1 : p.1 ≠ q.1 := by
        intro hcon
        exact hq (hcon ▸ List.mem_map.mpr ⟨p, h1, rfl⟩)
      show genrows M p.1 (genupdateBatch M b (genupdate M q.1 q.2 tb)) = _
      rw [ih _ hnd2 h1, genrows_genupdate M L q.1 p.1 q.2 tb, if_neg hp1]

/-- One batch of the upsert loop (`createMany` then per-record
`updateMany`): with distinct keys and a well-formed table, every batch
entry ends with exactly one row carrying its fields. -/
theorem genprocess_spec [DecidableEq K] (M : TableModel R K F) (L : M.Lawful)
    (b : List (K × F)) (hnd : (b.map Prod.fst).Nodup)
    (tb : List R × Nat) (hwf : ∀ kq, (genrows M kq tb).length ≤ 1)
    (p : K × F) (hp : p ∈ b) :
    ∃ r, genrows M p.1 (genprocess M b tb) = [r] ∧ M.ff r = p.2 := by
  have hne : genrows M p.1 (gencreateMany M b tb) ≠ [] :=
    gencreateMany_ne_nil M L b p.1 tb (Or.inl (List.mem_map.mpr ⟨p, hp, rfl⟩))
  have hlen : (genrows M p.1 (gencreateMany M b tb)).length ≤ 1 :=
    gencreateMany_wf M L b tb hwf p.1
  obtain ⟨r0, hr0⟩ := eq_singleton_of_len_le_one hlen hne
  refine ⟨M.setF p.2 r0, ?_, L.ff_set _ _⟩
  unfold genprocess
  rw [genupdateBatch_last M L b p _ hnd hp, hr0]
  rfl

/-- One batch does not touch keys outside the batch. -/
theorem genprocess_frame [DecidableEq K] (M : TableModel R K F) (L : M.Lawful)
    (b : List (K × F)) (k : K) (hk : k ∉ b.map Prod.fst) (tb : List R × Nat) :
    genrows M k (genprocess M b tb) = genrows M k tb := by
  unfold genprocess
  rw [genupdateBatch_frame M L b k _ hk, gencreateMany_frame M L b k _ hk]

/-- One batch preserves well-formedness. -/
theorem genprocess_wf [DecidableEq K] (M : TableModel R K F) (L : M.Lawful)
    (b : List (K × F)) (tb : List R × Nat)
    (hwf : ∀ kq, (genrows M kq tb).length ≤ 1) :
    ∀ kq, (genrows M kq (genprocess M b tb)).length ≤ 1 := by
  intro kq
  unfold genprocess
  rw [genupdateBatch_len M L b _ kq]
  exact gencreateMany_wf M L b tb hwf kq

/-- Concatenating the 100-record slices gives back the original list. -/
theorem chunksOfAux_flatten {α : Type} (n : Nat) (hn : 0 < n) :
    ∀ (fuel : Nat) (l : List α), l.length ≤ fuel →
      (chunksOfAux n fuel l).flatten = l := by
  intro fuel
  induction fuel with
  | zero =>
    intro l hl
    have : l = [] := List.eq_nil_of_length_eq_zero (Nat.le_zero.mp hl)
    subst this
    rfl
  | succ f ih =>
    intro l hl
    match l with
    | [] => rfl
    | x :: xs =>
      show (List.take n (x :: xs) :: chunksOfAux n f (List.drop n (x :: xs))).flatten = _
      rw [List.flatten_cons, ih _ ?_, List.take_append_drop]
      rw [List.length_drop]
      simp only [List.length_cons] at hl ⊢
      omega

/-- `chunks100` splits without losing or duplicating records. -/
theorem chunks100_flatten {α : Type} (l : List α) : (chunks100 l).flatten = l :=
  chunksOfAux_flatten 100 (by norm_num) l.length l le_rfl

/-- The batched fold does not touch keys outside all batches. -/
theorem genfold_frame [DecidableEq K] (M : TableModel R K F) (L : M.Lawful)
    (batches : List (List (K × F))) (k : K) :
    ∀ tb, k ∉ (batches.map (fun b => b.map Prod.fst)).flatten →
      genrows M k (genfoldBatches M batches tb) = genrows M k tb := by
  induction batches with
  | nil => intro tb _; rfl
  | cons b bs ih =>
    intro tb hk
    rw [List.map_cons, List.flatten_cons, List.mem_append, not_or] at hk
    show genrows M k (genfoldBatches M bs (genprocess M b tb)) = _
    rw [ih _ hk.2, genprocess_frame M L b k hk.1]

/-- The batched fold preserves well-formedness. -/
theorem genfold_wf [DecidableEq K] (M : TableModel R K F) (L : M.Lawful)
    (batches : List (List (K × F))) :
    ∀ tb, (∀ kq, (genrows M kq tb).length ≤ 1) →
      ∀ kq, (genrows M kq (genfoldBatches M batches tb)).length ≤ 1 := by
  induction batches with
  | nil => intro tb h; exact h
  | cons b bs ih =>
    intro tb h
    exact ih _ (genprocess_wf M L b tb h)

/-- The batched fold, with globally distinct keys over a well-formed table:
every written entry ends with exactly one row carrying its fields. -/
theorem genfold_spec [DecidableEq K] (M : TableModel R K F) (L : M.Lawful)
    (batches : List (List (K × F))) (b : List (K × F)) (p : K × F) :
    ∀ tb, ((batches.map (fun b => b.map Prod.fst)).flatten).Nodup →
      (∀ kq, (genrows M kq tb).length ≤ 1) → b ∈ batches → p ∈ b →
      ∃ r, genrows M p.1 (genfoldBatches M batches tb) = [r] ∧ M.ff r = p.2 := by
  induction batches with
  | nil => intro tb _ _ hb _; exact absurd hb (List.not_mem_nil b)
  | cons b0 bs ih =>
    intro tb hnd hwf hb hp
    rw [List.map_cons, List.flatten_cons, List.nodup_append] at hnd
    show ∃ r, genrows M p.1 (genfoldBatches M bs (genprocess M b0 tb)) = [r] ∧ M.ff r = p.2
    rcases List.mem_cons.mp hb with h1 | h1
    · subst h1
      obtain ⟨r, hr, hfr⟩ := genprocess_spec M L b (hnd.1) tb hwf p hp
      refine ⟨r, ?_, hfr⟩
      rw [genfold_frame M L bs p.1 _ ?_, hr]
      intro hmem
      exact hnd.2.2 (List.mem_map.mpr ⟨p, hp, rfl⟩) hmem
    · exact ih _ hnd.2.1 (genprocess_wf M L b0 tb hwf) h1 hp

/-- `upsertCustomers` on a nonempty list, written through the generic
table semantics: the count is the sum of the batch sizes, the customer
table evolves by the batched fold, the rest of the store is untouched, and
the trace is the batch trace. -/
theorem upsertCustomers_eq (t : String) (cs : List CustRec) (s : Store)
    (h : ¬cs.length = 0) :
    upsertCustomers t cs s =
      (((chunks100 cs).map List.length).sum,
       { s with customers := (genfoldBatches MCust (custBatches t cs) (custTB s)).1,
                nextId := (genfoldBatches MCust (custBatches t cs) (custTB s)).2 },
       custTraceAux t (chunks100 cs)) := by
  have main : ∀ (batches : List (List CustRec)) (n : Nat) (st : Store) (tr : List DbOp),
      batches.foldl
        (fun acc batch =>
          let pairs := batch.map (fun c => ((t, c.shopifyId), custDataOf c))
          let s1 := onCustomers (genprocess MCust pairs) acc.2.1
          (acc.1 + batch.length, s1,
            acc.2.2 ++ DbOp.customerCreateMany t batch.length ::
              batch.map (fun c => DbOp.customerUpdateMany t c.shopifyId)))
        (n, st, tr) =
      (n + (batches.map List.length).sum,
       { st with
          customers := (genfoldBatches MCust (batches.map (List.map (custPair t))) (custTB st)).1,
          nextId := (genfoldBatches MCust (batches.map (List.map (custPair t))) (custTB st)).2 },
       tr ++ custTraceAux t batches) := by
    intro batches
    induction batches with
    | nil =>
      intro n st tr
      cases st
      simp [genfoldBatches, custTB, custTraceAux]
    | cons b bs ih =>
      intro n st tr
      rw [List.foldl_cons]
      show bs.foldl _
          (n + b.length,
           onCustomers (genprocess MCust (b.map (fun c => ((t, c.shopifyId), custDataOf c)))) st,
           tr ++ DbOp.customerCreateMany t b.length ::
             b.map (fun c => DbOp.customerUpdateMany t c.shopifyId)) = _
      rw [ih]
      cases st
      refine Prod.ext ?_ (Prod.ext ?_ ?_)
      · simp [Nat.add_assoc]
      · rfl
      · simp [custTraceAux]
  rw [upsertCustomers, if_neg h, main, custBatches]
  simp

/-- The processed-record count of `upsertCustomers` is always the input
length. -/
theorem upsertCustomers_count (t : String) (cs : List CustRec) (s : Store) :
    (upsertCustomers t cs s).1 = cs.length := by
  by_cases h : cs.length = 0
  · rw [upsertCustomers, if_pos h, h]
  · rw [upsertCustomers_eq t cs s h]
    show ((chunks100 cs).map List.length).sum = cs.length
    rw [← List.length_flatten, chunks100_flatten]

/-- The processed-record count of `upsertProducts` is always the input
length. -/
theorem upsertProducts_count (t : String) (ps : List ProdRec) (s : Store) :
    (upsertProducts t ps s).1 = ps.length := by
  by_cases h : ps.length = 0
  · rw [upsertProducts, if_pos h, h]
  · rw [upsertProducts, if_neg h]
    have main : ∀ (batches : List (List ProdRec)) (acc : Nat × Store × List DbOp),
        (batches.foldl
          (fun acc batch =>
            let pairs := batch.map (fun p => ((t, p.shopifyId), prodDataOf p))
            let s1 := onProducts (genprocess MProd pairs) acc.2.1
            (acc.1 + batch.length, s1,
              acc.2.2 ++ DbOp.productCreateMany t batch.length ::
                batch.map (fun p => DbOp.productUpdateMany t p.shopifyId)))
          acc).1 = acc.1 + (batches.map List.length).sum := by
      intro batches
      induction batches with
      | nil => intro acc; simp
      | cons b bs ih =>
        intro acc
        rw [List.foldl_cons, ih]
        simp [Nat.add_assoc]
    show (List.foldl _ (0, s, []) (chunks100 ps)).1 = ps.length
    rw [main]
    simp only [Nat.zero_add]
    rw [← List.length_flatten, chunks100_flatten]

/-- `upsertOrders` on a nonempty list, written through the generic table
semantics: one optional batched customer lookup, then the batched fold on
the order table; the rest of the store is untouched. -/
theorem upsertOrders_eq (t : String) (orders : List OrderRec) (s : Store)
    (h : ¬orders.length = 0) :
    upsertOrders t orders s =
      (((chunks100 orders).map List.length).sum,
       { s with
          orders := (genfoldBatches MOrder
            (orderBatches (lookupRows t orders s) t orders) (orderTB s)).1,
          nextId := (genfoldBatches MOrder
            (orderBatches (lookupRows t orders s) t orders) (orderTB s)).2 },
       (if (referencedCustomerIds orders).length > 0
        then [DbOp.customerFindMany t (referencedCustomerIds orders)] else []) ++
         orderTraceAux t (chunks100 orders)) := by
  have main : ∀ (found : List CustomerRow) (batches : List (List OrderRec))
      (n : Nat) (st : Store) (tr : List DbOp),
      batches.foldl
        (fun acc batch =>
          let pairs := batch.map (fun o => ((t, o.shopifyId), orderDataOf found o))
          let s1 := onOrders (genprocess MOrder pairs) acc.2.1
          (acc.1 + batch.length, s1,
            acc.2.2 ++ DbOp.orderCreateMany t batch.length ::
              batch.map (fun o => DbOp.orderUpdateMany t o.shopifyId)))
        (n, st, tr) =
      (n + (batches.map List.length).sum,
       { st with
          orders := (genfoldBatches MOrder (batches.map (List.map (orderPair found t))) (orderTB st)).1,
          nextId := (genfoldBatches MOrder (batches.map (List.map (orderPair found t))) (orderTB st)).2 },
       tr ++ orderTraceAux t batches) := by
    intro found batches
    induction batches with
    | nil =>
      intro n st tr
      cases st
      simp [genfoldBatches, orderTB, orderTraceAux]
    | cons b bs ih =>
      intro n st tr
      rw [List.foldl_cons]
      show bs.foldl _
          (n + b.length,
           onOrders (genprocess MOrder (b.map (fun o => ((t, o.shopifyId), orderDataOf found o)))) st,
           tr ++ DbOp.orderCreateMany t b.length ::
             b.map (fun o => DbOp.orderUpdateMany t o.shopifyId)) = _
      rw [ih]
      cases st
      refine Prod.ext ?_ (Prod.ext ?_ ?_)
      · simp [Nat.add_assoc]
      · rfl
      · simp [orderTraceAux]
  rw [upsertOrders, if_neg h]
  simp only []
  rw [main]
  by_cases hr : (referencedCustomerIds orders).length > 0 <;>
    simp [hr, lookupRows, orderBatches]

/-- The processed-record count of `upsertOrders` is always the input
length, i.e. the upsert returns without failing. -/
theorem upsertOrders_count (t : String) (orders : List OrderRec) (s : Store) :
    (upsertOrders t orders s).1 = orders.length := by
  by_cases h : orders.length = 0
  · rw [upsertOrders, if_pos h, h]
  · rw [upsertOrders_eq t orders s h]
    show ((chunks100 orders).map List.length).sum = orders.length
    rw [← List.length_flatten, chunks100_flatten]

/-- Flattening distributes over an inner map. -/
theorem flatten_map_map {α β : Type} (f : α → β) (L : List (List α)) :
    (L.map (List.map f)).flatten = L.flatten.map f := by
  induction L with
  | nil => rfl
  | cons a L ih =>
    rw [List.map_cons, List.flatten_cons, List.flatten_cons, List.map_append, ih]

/-- The keys written by one `upsertCustomers` call, batch by batch, are the
records' `(tenantId, shopifyId)` pairs in order. -/
theorem custBatches_keys (t : String) (cs : List CustRec) :
    ((custBatches t cs).map (fun b => b.map Prod.fst)).flatten =
      cs.map (fun c => (t, c.shopifyId)) := by
  rw [custBatches]
  rw [List.map_map, show (fun b => List.map Prod.fst b) ∘ List.map (custPair t) =
    List.map (fun c => (t, c.shopifyId)) from ?_, flatten_map_map, chunks100_flatten]
  funext b
  simp [Function.comp, List.map_map, custPair]

/-- A single `upsertCustomers` run: well-formedness of the customer table
is preserved, and (with distinct external ids) every record ends stored as
exactly one row whose scalar fields are the record's written data. -/
theorem upsertCustomers_run (t : String) (cs : List CustRec) (s : Store)
    (hwf : ∀ k, (genrows MCust k (custTB s)).length ≤ 1)
    (hnd : (cs.map CustRec.shopifyId).Nodup) :
    (∀ k, (genrows MCust k (custTB (upsertCustomers t cs s).2.1)).length ≤ 1) ∧
    (∀ c ∈ cs, ∃ row, genrows MCust (t, c.shopifyId) (custTB (upsertCustomers t cs s).2.1) = [row] ∧
      MCust.ff row = custDataOf c) := by
  by_cases h : cs.length = 0
  · have hnil : cs = [] := List.eq_nil_of_length_eq_zero h
    subst hnil
    exact ⟨hwf, by simp⟩
  · have hkeysnd : (((custBatches t cs).map (fun b => b.map Prod.fst)).flatten).Nodup := by
      rw [custBatches_keys]
      have : cs.map (fun c => (t, c.shopifyId)) =
          (cs.map CustRec.shopifyId).map (fun sid => (t, sid)) := by
        rw [List.map_map]
        rfl
      rw [this]
      refine hnd.map ?_
      intro a b hab
      exact (Prod.mk.injEq t a t b).mp hab |>.2
    rw [upsertCustomers_eq t cs s h]
    have htb : custTB { s with
        customers := (genfoldBatches MCust (custBatches t cs) (custTB s)).1,
        nextId := (genfoldBatches MCust (custBatches t cs) (custTB s)).2 } =
        genfoldBatches MCust (custBatches t cs) (custTB s) := rfl
    constructor
    · intro k
      rw [htb]
      exact genfold_wf MCust MCust_lawful (custBatches t cs) (custTB s) hwf k
    · intro c hc
      have hcfl : c ∈ (chunks100 cs).flatten := by rw [chunks100_flatten]; exact hc
      obtain ⟨b, hb, hcb⟩ := List.mem_flatten.mp hcfl
      have hb2 : b.map (custPair t) ∈ custBatches t cs :=
        List.mem_map.mpr ⟨b, hb, rfl⟩
      have hp2 : custPair t c ∈ b.map (custPair t) :=
        List.mem_map.mpr ⟨c, hcb, rfl⟩
      obtain ⟨row, hrow, hfrow⟩ := genfold_spec MCust MCust_lawful (custBatches t cs)
        (b.map (custPair t)) (custPair t c) (custTB s) hkeysnd hwf hb2 hp2
      exact ⟨row, by rw [htb]; exact hrow, hfrow⟩

/-- Counting rows over membership in a disjoint union of predicates. -/
theorem length_filter_or {α : Type} (p q : α → Prop) [DecidablePred p] [DecidablePred q]
    (l : List α) (hdisj : ∀ a ∈ l, ¬(p a ∧ q a)) :
    (l.filter (fun a => decide (p a) || decide (q a))).length =
      (l.filter (fun a => decide (p a))).length + (l.filter (fun a => decide (q a))).length := by
  induction l with
  | nil => rfl
  | cons a l ih =>
    have hd2 : ∀ x ∈ l, ¬(p x ∧ q x) := fun x hx => hdisj x (List.mem_cons_of_mem a hx)
    by_cases hp : p a
    · have hq : ¬q a := fun hq => hdisj a (List.mem_cons_self a l) ⟨hp, hq⟩
      simp [List.filter_cons, hp, hq, ih hd2, Nat.add_assoc, Nat.add_comm, Nat.add_left_comm]
    · by_cases hq : q a
      · simp [List.filter_cons, hp, hq, ih hd2, Nat.add_assoc, Nat.add_comm, Nat.add_left_comm]
      · simp [List.filter_cons, hp, hq, ih hd2]

/-- Deciding membership agrees with `List.any` over equality tests. -/
theorem decide_mem_eq_any {K : Type} [DecidableEq K] (a : K) (l : List K) :
    decide (a ∈ l) = l.any (fun k2 => decide (a = k2)) := by
  rw [Bool.eq_iff_iff]
  constructor
  · intro h
    rw [List.any_eq_true]
    exact ⟨a, of_decide_eq_true h, by simp⟩
  · intro h
    rw [List.any_eq_true] at h
    obtain ⟨x, hx, hax⟩ := h
    simp only [decide_eq_true_eq] at hax
    exact decide_eq_true (hax ▸ hx)

/-- If every key of a duplicate-free key list has exactly one row, the rows
whose key lies in the list number exactly the keys. -/
theorem length_filter_mem_keys [DecidableEq K] (M : TableModel R K F) :
    ∀ (keys : List K) (tb : List R × Nat), keys.Nodup →
      (∀ k ∈ keys, (genrows M k tb).length = 1) →
      (tb.1.filter (fun r => keys.any (fun k2 => decide (M.kf r = k2)))).length =
        keys.length := by
  intro keys
  induction keys with
  | nil => intro tb _ _; simp
  | cons k ks ih =>
    intro tb hnd h1
    have hk : k ∉ ks := (List.nodup_cons.mp hnd).1
    have hcongr : tb.1.filter (fun r => (k :: ks).any (fun k2 => decide (M.kf r = k2))) =
        tb.1.filter (fun r => decide (M.kf r = k) ||
          decide (ks.any (fun k2 => decide (M.kf r = k2)) = true)) := by
      refine List.filter_congr ?_
      intro r _
      simp [List.any_cons, decide_mem_eq_any]
    rw [hcongr, length_filter_or (fun r => M.kf r = k)
      (fun r => ks.any (fun k2 => decide (M.kf r = k2)) = true) tb.1 ?_]
    · have hone : (tb.1.filter (fun r => decide (M.kf r = k))).length = 1 :=
        h1 k (List.mem_cons_self k ks)
      have hcongr2 : tb.1.filter (fun r => decide (ks.any (fun k2 => decide (M.kf r = k2)) = true)) =
          tb.1.filter (fun r => ks.any (fun k2 => decide (M.kf r = k2))) := by
        refine List.filter_congr ?_
        intro r _
        simp [decide_mem_eq_any]
      rw [hone, hcongr2, ih tb (List.nodup_cons.mp hnd).2
        (fun k2 hk2 => h1 k2 (List.mem_cons_of_mem k hk2))]
      simp [List.length_cons, Nat.add_comm]
    · intro r _
      intro hcon
      obtain ⟨k2, hk2, hkr⟩ := List.any_eq_true.mp hcon.2
      have : k = k2 := by
        have := hcon.1
        simp only [decide_eq_true_eq] at hkr
        rw [← this, hkr]
      exact hk (this ▸ hk2)

/-- **C3 (counterexample).** The claim quantifies over *every* list of N
normalized records, but a list containing the same external id twice yields
fewer than N rows: `createMany` with `skipDuplicates` collapses the two
records with key `("t", "1")` into one row, while the call still returns
N = 2. Both runs are shown; the persisted table holds a single row. -/
theorem upsertCustomers_duplicate_ids :
    (upsertCustomers "t"
      [⟨some "1", some "a", none, none, .num 5⟩, ⟨some "1", some "a", none, none, .num 5⟩]
      ⟨[], [], [], [], [], 0⟩).1 = 2 ∧
    ((upsertCustomers "t"
      [⟨some "1", some "a", none, none, .num 5⟩, ⟨some "1", some "a", none, none, .num 5⟩]
      ((upsertCustomers "t"
        [⟨some "1", some "a", none, none, .num 5⟩, ⟨some "1", some "a", none, none, .num 5⟩]
        ⟨[], [], [], [], [], 0⟩).2.1)).2.1).customers.length = 1 := by
  constructor <;> rfl

/-- **C3 (amended).** For every tenant and list of N normalized customer
records *with pairwise-distinct external ids*, over a well-formed store
(at most one row per (tenantId, externalId)): running the upsert twice with
the identical list returns N both times (the count of records processed,
not of rows changed), and afterwards each record is persisted as exactly
one row keyed by (tenantId, externalId) whose scalar fields equal the
record's, the written keys numbering exactly N rows. `hnorm` states that
the records are in the image of the Normalizer (string fields are absent or
nonempty, `totalSpent` is a number), under which the source's
`|| null` / `|| 0` data mapping is the identity. -/
theorem upsertCustomers_idempotent (t : String) (cs : List CustRec) (s : Store)
    (hwf : ∀ k, (genrows MCust k (custTB s)).length ≤ 1)
    (hnd : (cs.map CustRec.shopifyId).Nodup)
    (hnorm : ∀ c ∈ cs, custDataOf c = ⟨c.email, c.firstName, c.lastName, c.totalSpent⟩) :
    (upsertCustomers t cs s).1 = cs.length ∧
    (upsertCustomers t cs (upsertCustomers t cs s).2.1).1 = cs.length ∧
    (∀ c ∈ cs, ∃ row : CustomerRow,
        genrows MCust (t, c.shopifyId)
          (custTB (upsertCustomers t cs (upsertCustomers t cs s).2.1).2.1) = [row] ∧
        row.email = c.email ∧ row.firstName = c.firstName ∧
        row.lastName = c.lastName ∧ row.totalSpent = c.totalSpent) ∧
    (((upsertCustomers t cs (upsertCustomers t cs s).2.1).2.1).customers.filter
        (fun r => (cs.map (fun c => (t, c.shopifyId))).any
          (fun k => decide (MCust.kf r = k)))).length = cs.length := by
  obtain ⟨hwf1, _⟩ := upsertCustomers_run t cs s hwf hnd
  obtain ⟨hwf2, hrec2⟩ := upsertCustomers_run t cs (upsertCustomers t cs s).2.1 hwf1 hnd
  refine ⟨upsertCustomers_count t cs s, upsertCustomers_count t cs _, ?_, ?_⟩
  · intro c hc
    obtain ⟨row, hrow, hf⟩ := hrec2 c hc
    refine ⟨row, hrow, ?_⟩
    rw [hnorm c hc] at hf
    have hf2 : (⟨row.email, row.firstName, row.lastName, row.totalSpent⟩ : CustFields) =
        ⟨c.email, c.firstName, c.lastName, c.totalSpent⟩ := hf
    simp only [CustFields.mk.injEq] at hf2
    exact ⟨hf2.1, hf2.2.1, hf2.2.2.1, hf2.2.2.2⟩
  · have hkeysnd : (cs.map (fun c => (t, c.shopifyId))).Nodup := by
      have : cs.map (fun c => (t, c.shopifyId)) =
          (cs.map CustRec.shopifyId).map (fun sid => (t, sid)) := by
        rw [List.map_map]
        rfl
      rw [this]
      refine hnd.map ?_
      intro a b hab
      exact (Prod.mk.injEq t a t b).mp hab |>.2
    have := length_filter_mem_keys MCust (cs.map (fun c => (t, c.shopifyId)))
      (custTB (upsertCustomers t cs (upsertCustomers t cs s).2.1).2.1) hkeysnd ?_
    · exact this.trans (by rw [List.length_map])

    · intro k hk
      obtain ⟨c, hc, hck⟩ := List.mem_map.mp hk
      obtain ⟨row, hrow, _⟩ := hrec2 c hc
      rw [← hck, hrow]
      rfl

theorem upsertCustomers_idempotent_witness :
    (upsertCustomers "t" [⟨some "1", some "e", none, none, .num 2⟩] ⟨[], [], [], [], [], 0⟩).1 = 1 :=
  (upsertCustomers_idempotent "t" [⟨some "1", some "e", none, none, .num 2⟩]
    ⟨[], [], [], [], [], 0⟩ (fun k => by simp [genrows, custTB]) (by simp) (by decide)).1

/-- `find?` returns the head of the filtered list. -/
theorem find?_eq_head?_filter {α : Type} (p : α → Bool) (l : List α) :
    l.find? p = (l.filter p).head? := by
  induction l with
  | nil => rfl
  | cons a l ih =>
    cases h : p a with
    | true => rw [List.find?_cons, List.filter_cons, h]; rfl
    | false => rw [List.find?_cons, List.filter_cons, h]; simpa using ih

/-- If the filter of a list is the singleton `[r]`, searching the reversed
list finds `r`. -/
theorem find?_reverse_of_filter_singleton {α : Type} (p : α → Bool) (l : List α) (r : α)
    (h : l.filter p = [r]) : l.reverse.find? p = some r := by
  rw [find?_eq_head?_filter, List.filter_reverse, h]
  rfl

/-- Membership in the first-occurrence deduplication. -/
theorem mem_dedupFirstAux (l : List String) :
    ∀ (seen : List String) (x : String), x ∈ dedupFirstAux seen l ↔ x ∈ l ∧ x ∉ seen := by
  induction l with
  | nil => intro seen x; simp [dedupFirstAux]
  | cons y l ih =>
    intro seen x
    by_cases hy : y ∈ seen
    · rw [dedupFirstAux, if_pos hy, ih seen x]
      constructor
      · exact fun h => ⟨List.mem_cons_of_mem y h.1, h.2⟩
      · rintro ⟨h1, h2⟩
        rcases List.mem_cons.mp h1 with h3 | h3
        · exact absurd (h3 ▸ hy) h2
        · exact ⟨h3, h2⟩
    · rw [dedupFirstAux, if_neg hy]
      constructor
      · intro h
        rcases List.mem_cons.mp h with h3 | h3
        · exact ⟨h3 ▸ List.mem_cons_self y l, h3 ▸ hy⟩
        · obtain ⟨h4, h5⟩ := (ih (y :: seen) x).mp h3
          exact ⟨List.mem_cons_of_mem y h4,
            fun hcon => h5 (List.mem_cons_of_mem y hcon)⟩
      · rintro ⟨h1, h2⟩
        rcases List.mem_cons.mp h1 with h3 | h3
        · exact h3 ▸ List.mem_cons_self y _
        · by_cases hxy : x = y
          · exact hxy ▸ List.mem_cons_self y _
          · refine List.mem_cons_of_mem y ((ih (y :: seen) x).mpr ⟨h3, ?_⟩)
            intro hcon
            rcases List.mem_cons.mp hcon with h4 | h4
            · exact hxy h4
            · exact h2 h4

/-- An order's truthy customer reference is collected into the batched
lookup's id list. -/
theorem mem_referencedCustomerIds {orders : List OrderRec} {o : OrderRec} {cid : String}
    (ho : o ∈ orders) (hc : o.customerId = some cid) (hne : cid ≠ "") :
    cid ∈ referencedCustomerIds orders := by
  unfold referencedCustomerIds dedupFirst
  rw [mem_dedupFirstAux]
  refine ⟨List.mem_filterMap.mpr ⟨some cid, List.mem_map.mpr ⟨o, ho, hc⟩, by simp [hne]⟩,
    List.not_mem_nil cid⟩

/-- Within the lookup result, the rows carrying external id `cid` (for a
`cid` in the queried id set) are exactly the store's rows keyed
`(t, some cid)`. -/
theorem lookup_filter_eq_genrows (t : String) (ids : List String) (s : Store)
    (cid : String) (hcid : cid ∈ ids) :
    (customerLookup t ids s).filter (fun r => decide (r.shopifyId = some cid)) =
      genrows MCust (t, some cid) (custTB s) := by
  unfold customerLookup genrows custTB
  rw [List.filter_filter]
  refine List.filter_congr ?_
  intro r _
  show (decide (r.shopifyId = some cid) &&
      (decide (r.tenantId = t) &&
        match r.shopifyId with
        | some sid => decide (sid ∈ ids)
        | none => false)) =
    decide (MCust.kf r = (t, some cid))
  by_cases hsid : r.shopifyId = some cid
  · by_cases ht : r.tenantId = t
    · simp [hsid, ht, MCust, Prod.ext_iff, hcid]
    · simp [hsid, ht, MCust, Prod.ext_iff]
  · simp [hsid, MCust, Prod.ext_iff]

/-- Resolving a referenced id that exists for the tenant yields that
customer's internal key. -/
theorem mapGet_lookup_some (t : String) (ids : List String) (s : Store)
    (cid : String) (hcid : cid ∈ ids) (row : CustomerRow)
    (h : genrows MCust (t, some cid) (custTB s) = [row]) :
    mapGet (customerLookup t ids s) cid = some row.id := by
  unfold mapGet
  rw [find?_reverse_of_filter_singleton _ _ row
    ((lookup_filter_eq_genrows t ids s cid hcid).trans h)]
  rfl

/-- Resolving a referenced id with no matching customer row yields `null`. -/
theorem mapGet_lookup_none (t : String) (ids : List String) (s : Store)
    (cid : String) (hcid : cid ∈ ids)
    (h : genrows MCust (t, some cid) (custTB s) = []) :
    mapGet (customerLookup t ids s) cid = none := by
  unfold mapGet
  rw [find?_eq_head?_filter, List.filter_reverse,
    (lookup_filter_eq_genrows t ids s cid hcid).trans h]
  rfl

/-- The keys written by one `upsertOrders` call. -/
theorem orderBatches_keys (found : List CustomerRow) (t : String) (orders : List OrderRec) :
    ((orderBatches found t orders).map (fun b => b.map Prod.fst)).flatten =
      orders.map (fun o => (t, o.shopifyId)) := by
  rw [orderBatches]
  rw [List.map_map, show (fun b => List.map Prod.fst b) ∘ List.map (orderPair found t) =
    List.map (fun o => (t, o.shopifyId)) from ?_, flatten_map_map, chunks100_flatten]
  funext b
  simp [Function.comp, List.map_map, orderPair]

/-- A single `upsertOrders` run: with distinct external ids over a
well-formed order table, every order ends stored as exactly one row whose
written fields are `orderDataOf` of the batched lookup's rows. -/
theorem upsertOrders_run (t : String) (orders : List OrderRec) (s : Store)
    (hwfo : ∀ k, (genrows MOrder k (orderTB s)).length ≤ 1)
    (hnd : (orders.map OrderRec.shopifyId).Nodup) :
    ∀ o ∈ orders, ∃ row,
      genrows MOrder (t, o.shopifyId) (orderTB (upsertOrders t orders s).2.1) = [row] ∧
      MOrder.ff row = orderDataOf (lookupRows t orders s) o := by
  intro o ho
  have h : ¬orders.length = 0 := by
    intro hcon
    rw [List.eq_nil_of_length_eq_zero hcon] at ho
    exact List.not_mem_nil o ho
  have hkeysnd : (((orderBatches (lookupRows t orders s) t orders).map
      (fun b => b.map Prod.fst)).flatten).Nodup := by
    rw [orderBatches_keys]
    have : orders.map (fun o => (t, o.shopifyId)) =
        (orders.map OrderRec.shopifyId).map (fun sid => (t, sid)) := by
      rw [List.map_map]
      rfl
    rw [this]
    refine hnd.map ?_
    intro a b hab
    exact (Prod.mk.injEq t a t b).mp hab |>.2
  rw [upsertOrders_eq t orders s h]
  have hofl : o ∈ (chunks100 orders).flatten := by rw [chunks100_flatten]; exact ho
  obtain ⟨b, hb, hob⟩ := List.mem_flatten.mp hofl
  have hb2 : b.map (orderPair (lookupRows t orders s) t) ∈
      orderBatches (lookupRows t orders s) t orders :=
    List.mem_map.mpr ⟨b, hb, rfl⟩
  have hp2 : orderPair (lookupRows t orders s) t o ∈
      b.map (orderPair (lookupRows t orders s) t) :=
    List.mem_map.mpr ⟨o, hob, rfl⟩
  obtain ⟨row, hrow, hfrow⟩ := genfold_spec MOrder MOrder_lawful
    (orderBatches (lookupRows t orders s) t orders)
    (b.map (orderPair (lookupRows t orders s) t))
    (orderPair (lookupRows t orders s) t o) (orderTB s) hkeysnd hwfo hb2 hp2
  exact ⟨row, hrow, hfrow⟩

/-- The order-batch trace contains no customer lookup. -/
theorem orderTraceAux_no_lookup (t : String) (batches : List (List OrderRec)) :
    ∀ op ∈ orderTraceAux t batches, isCustFindMany op = false := by
  intro op hop
  unfold orderTraceAux at hop
  obtain ⟨b2, hb2, hopb⟩ := List.mem_flatten.mp hop
  obtain ⟨b, _, hmap⟩ := List.mem_map.mp hb2
  subst hmap
  rcases List.mem_cons.mp hopb with h1 | h1
  · subst h1; rfl
  · obtain ⟨o2, _, hop2⟩ := List.mem_map.mp h1
    subst hop2; rfl

/-- **C4.** `upsertOrders` resolves all referenced customer external ids
with at most one batched lookup per call and never fails. Conjuncts:
(1) the call returns the processed count for every input; (2) the trace
contains the batched `customer.findMany` exactly once when some order
carries a truthy reference and not at all otherwise — never one lookup per
order; (3) any issued lookup queries this tenant and exactly the
deduplicated referenced ids; (4) an order referencing an external id with a
persisted customer row ends linked to that row's internal key, and one
whose reference matches no row ends with a null reference; (5) an order
with no reference ends with a null reference. Hypotheses: the store is
well-formed (at most one row per key in the customer and order tables) and
the orders carry pairwise-distinct external ids. -/
theorem upsertOrders_reference_resolution (t : String) (orders : List OrderRec) (s : Store)
    (hwfc : ∀ k, (genrows MCust k (custTB s)).length ≤ 1)
    (hwfo : ∀ k, (genrows MOrder k (orderTB s)).length ≤ 1)
    (hnd : (orders.map OrderRec.shopifyId).Nodup) :
    (upsertOrders t orders s).1 = orders.length ∧
    ((upsertOrders t orders s).2.2.countP isCustFindMany =
      if referencedCustomerIds orders = [] then 0 else 1) ∧
    (∀ tid ids, DbOp.customerFindMany tid ids ∈ (upsertOrders t orders s).2.2 →
      tid = t ∧ ids = referencedCustomerIds orders) ∧
    (∀ o ∈ orders, ∀ cid : String, o.customerId = some cid → cid ≠ "" →
      (∀ crow : CustomerRow, genrows MCust (t, some cid) (custTB s) = [crow] →
        ∃ orow : OrderRow,
          genrows MOrder (t, o.shopifyId) (orderTB (upsertOrders t orders s).2.1) = [orow] ∧
          orow.customerId = some crow.id) ∧
      (genrows MCust (t, some cid) (custTB s) = [] →
        ∃ orow : OrderRow,
          genrows MOrder (t, o.shopifyId) (orderTB (upsertOrders t orders s).2.1) = [orow] ∧
          orow.customerId = none)) ∧
    (∀ o ∈ orders, o.customerId = none →
      ∃ orow : OrderRow,
        genrows MOrder (t, o.shopifyId) (orderTB (upsertOrders t orders s).2.1) = [orow] ∧
        orow.customerId = none) := by
  have hresolve : ∀ o ∈ orders, ∃ orow : OrderRow,
      genrows MOrder (t, o.shopifyId) (orderTB (upsertOrders t orders s).2.1) = [orow] ∧
      orow.customerId = resolveRef (lookupRows t orders s) o.customerId := by
    intro o ho
    obtain ⟨row, hrow, hf⟩ := upsertOrders_run t orders s hwfo hnd o ho
    refine ⟨row, hrow, ?_⟩
    have hf2 : (⟨row.customerId, row.orderNumber, row.totalPrice, row.orderDate⟩ : OrderFields) =
        orderDataOf (lookupRows t orders s) o := hf
    rw [orderDataOf] at hf2
    simp only [OrderFields.mk.injEq] at hf2
    exact hf2.1
  refine ⟨upsertOrders_count t orders s, ?_, ?_, ?_, ?_⟩
  · by_cases h : orders.length = 0
    · have : orders = [] := List.eq_nil_of_length_eq_zero h
      subst this
      rw [upsertOrders]
      simp [referencedCustomerIds, dedupFirst, dedupFirstAux]
    · rw [upsertOrders_eq t orders s h]
      show (((if (referencedCustomerIds orders).length > 0
          then [DbOp.customerFindMany t (referencedCustomerIds orders)] else []) ++
            orderTraceAux t (chunks100 orders)).countP isCustFindMany) = _
      rw [List.countP_append]
      have htr0 : List.countP isCustFindMany (orderTraceAux t (chunks100 orders)) = 0 :=
        List.countP_eq_zero.mpr (fun op hop => by
          rw [orderTraceAux_no_lookup t (chunks100 orders) op hop]
          exact Bool.false_ne_true)
      rw [htr0]
      by_cases hr : referencedCustomerIds orders = []
      · simp [hr]
      · simp [hr, List.length_pos.mpr hr, isCustFindMany]
  · intro tid ids hmem
    by_cases h : orders.length = 0
    · have : orders = [] := List.eq_nil_of_length_eq_zero h
      subst this
      rw [upsertOrders] at hmem
      exact absurd hmem (List.not_mem_nil _)
    · rw [upsertOrders_eq t orders s h] at hmem
      rcases List.mem_append.mp hmem with h1 | h1
      · by_cases hr : (referencedCustomerIds orders).length > 0
        · rw [if_pos hr] at h1
          rcases List.mem_singleton.mp h1 with h2
          exact ⟨(DbOp.customerFindMany.injEq _ _ _ _).mp h2 |>.1,
            (DbOp.customerFindMany.injEq _ _ _ _).mp h2 |>.2⟩
        · rw [if_neg hr] at h1
          exact absurd h1 (List.not_mem_nil _)
      · have := orderTraceAux_no_lookup t (chunks100 orders) _ h1
        simp [isCustFindMany] at this
  · intro o ho cid hc hne
    have hcid : cid ∈ referencedCustomerIds orders := mem_referencedCustomerIds ho hc hne
    have hlr : lookupRows t orders s = customerLookup t (referencedCustomerIds orders) s := by
      rw [lookupRows, if_pos (List.length_pos.mpr (List.ne_nil_of_mem hcid))]
    obtain ⟨orow, horow, hocid⟩ := hresolve o ho
    constructor
    · intro crow hcrow
      refine ⟨orow, horow, ?_⟩
      rw [hocid, hc, resolveRef, if_pos hne, hlr,
        mapGet_lookup_some t (referencedCustomerIds orders) s cid hcid crow hcrow]
    · intro hnil
      refine ⟨orow, horow, ?_⟩
      rw [hocid, hc, resolveRef, if_pos hne, hlr,
        mapGet_lookup_none t (referencedCustomerIds orders) s cid hcid hnil]
  · intro o ho hc
    obtain ⟨orow, horow, hocid⟩ := hresolve o ho
    refine ⟨orow, horow, ?_⟩
    rw [hocid, hc, resolveRef]

theorem upsertOrders_reference_resolution_witness :
    (upsertOrders "t"
      [⟨"100", some "9", some "1001", .num 50, some "2024-01-01", []⟩]
      ⟨[], [⟨3, "t", some "9", some "e", none, none, .num 0⟩], [], [], [], 4⟩).1 = 1 :=
  (upsertOrders_reference_resolution "t"
    [⟨"100", some "9", some "1001", .num 50, some "2024-01-01", []⟩]
    ⟨[], [⟨3, "t", some "9", some "e", none, none, .num 0⟩], [], [], [], 4⟩
    (fun k => by
      simp only [genrows, custTB]
      exact List.length_filter_le _ _)
    (fun k => by simp [genrows, orderTB])
    (by simp)).1

/-- The customer upsert performs storage operations only, no fetches. -/
theorem upsertCustomers_no_fetch (t : String) (cs : List CustRec) (st : Store) :
    ∀ op ∈ (upsertCustomers t cs st).2.2, isFetchOp op = false := by
  rw [upsertCustomers]
  split
  · intro op hop
    exact absurd hop (List.not_mem_nil op)
  · have main : ∀ (batches : List (List CustRec)) (acc : Nat × Store × List DbOp),
        (∀ op ∈ acc.2.2, isFetchOp op = false) →
        ∀ op ∈ (batches.foldl
          (fun acc batch =>
            let pairs := batch.map (fun c => ((t, c.shopifyId), custDataOf c))
            let s1 := onCustomers (genprocess MCust pairs) acc.2.1
            (acc.1 + batch.length, s1,
              acc.2.2 ++ DbOp.customerCreateMany t batch.length ::
                batch.map (fun c => DbOp.customerUpdateMany t c.shopifyId)))
          acc).2.2, isFetchOp op = false := by
      intro batches
      induction batches with
      | nil => intro acc h; exact h
      | cons b bs ih =>
        intro acc h
        rw [List.foldl_cons]
        refine ih _ ?_
        intro op hop
        rcases List.mem_append.mp hop with h1 | h1
        · exact h op h1
        · rcases List.mem_cons.mp h1 with h2 | h2
          · subst h2; rfl
          · obtain ⟨c, _, hc⟩ := List.mem_map.mp h2
            subst hc; rfl
    exact main (chunks100 cs) (0, st, []) (fun op hop => absurd hop (List.not_mem_nil op))

/-- The product upsert performs storage operations only, no fetches. -/
theorem upsertProducts_no_fetch (t : String) (ps : List ProdRec) (st : Store) :
    ∀ op ∈ (upsertProducts t ps st).2.2, isFetchOp op = false := by
  rw [upsertProducts]
  split
  · intro op hop
    exact absurd hop (List.not_mem_nil op)
  · have main : ∀ (batches : List (List ProdRec)) (acc : Nat × Store × List DbOp),
        (∀ op ∈ acc.2.2, isFetchOp op = false) →
        ∀ op ∈ (batches.foldl
          (fun acc batch =>
            let pairs := batch.map (fun p => ((t, p.shopifyId), prodDataOf p))
            let s1 := onProducts (genprocess MProd pairs) acc.2.1
            (acc.1 + batch.length, s1,
              acc.2.2 ++ DbOp.productCreateMany t batch.length ::
                batch.map (fun p => DbOp.productUpdateMany t p.shopifyId)))
          acc).2.2, isFetchOp op = false := by
      intro batches
      induction batches with
      | nil => intro acc h; exact h
      | cons b bs ih =>
        intro acc h
        rw [List.foldl_cons]
        refine ih _ ?_
        intro op hop
        rcases List.mem_append.mp hop with h1 | h1
        · exact h op h1
        · rcases List.mem_cons.mp h1 with h2 | h2
          · subst h2; rfl
          · obtain ⟨p, _, hp⟩ := List.mem_map.mp h2
            subst hp; rfl
    exact main (chunks100 ps) (0, st, []) (fun op hop => absurd hop (List.not_mem_nil op))

/-- The order upsert performs storage operations only (including the
batched customer lookup), no fetches. -/
theorem upsertOrders_no_fetch (t : String) (os : List OrderRec) (st : Store) :
    ∀ op ∈ (upsertOrders t os st).2.2, isFetchOp op = false := by
  by_cases h : os.length = 0
  · rw [upsertOrders, if_pos h]
    intro op hop
    exact absurd hop (List.not_mem_nil op)
  · rw [upsertOrders_eq t os st h]
    intro op hop
    rcases List.mem_append.mp hop with h1 | h1
    · split at h1
      · rcases List.mem_singleton.mp h1 with h2
        subst h2; rfl
      · exact absurd h1 (List.not_mem_nil op)
    · unfold orderTraceAux at h1
      obtain ⟨b2, hb2, hopb⟩ := List.mem_flatten.mp h1
      obtain ⟨b, _, hmap⟩ := List.mem_map.mp hb2
      subst hmap
      rcases List.mem_cons.mp hopb with h2 | h2
      · subst h2; rfl
      · obtain ⟨o2, _, ho2⟩ := List.mem_map.mp h2
        subst ho2; rfl

/-- A fetch operation cannot occur in a trace free of fetch operations. -/
theorem countP_eq_zero_of_no_fetch (X : DbOp) (hX : isFetchOp X = true)
    (tr : List DbOp) (h : ∀ op ∈ tr, isFetchOp op = false) :
    tr.countP (fun op => decide (op = X)) = 0 := by
  refine List.countP_eq_zero.mpr ?_
  intro op hop
  simp only [decide_eq_true_eq]
  intro hcon
  rw [hcon] at hop
  rw [h X hop] at hX
  exact Bool.false_ne_true hX

/-- A fetch operation is not a member of a trace free of fetch
operations. -/
theorem not_mem_of_no_fetch (X : DbOp) (hX : isFetchOp X = true)
    (tr : List DbOp) (h : ∀ op ∈ tr, isFetchOp op = false) : X ∉ tr := by
  intro hmem
  rw [h X hmem] at hX
  exact Bool.false_ne_true hX

/-- **C2 (counterexample).** The claim says every entity type attempts the
primary (GraphQL) client first, and that a double failure produces a
combined error naming both causes. On a successful sync of an onboarded
tenant, the trace shows the REST products and orders clients invoked with
the GraphQL product/order clients never attempted; and when both customer
fetches fail (primary error `"gql down"`, fallback error `"rest down"`)
the sync fails with the fallback's error alone, which does not name the
primary's cause. -/
theorem syncAll_rest_only_products_orders :
    DbOp.fetchProductsRest ∈ (syncAll "t1" (.ok []) (.ok []) (.ok []) (.ok [])
      ⟨[⟨"t1", "Shop", "d.myshopify.com", "tok"⟩], [], [], [], [], 1⟩).trace ∧
    DbOp.fetchOrdersRest ∈ (syncAll "t1" (.ok []) (.ok []) (.ok []) (.ok [])
      ⟨[⟨"t1", "Shop", "d.myshopify.com", "tok"⟩], [], [], [], [], 1⟩).trace ∧
    DbOp.fetchProductsGraphQL ∉ (syncAll "t1" (.ok []) (.ok []) (.ok []) (.ok [])
      ⟨[⟨"t1", "Shop", "d.myshopify.com", "tok"⟩], [], [], [], [], 1⟩).trace ∧
    DbOp.fetchOrdersGraphQL ∉ (syncAll "t1" (.ok []) (.ok []) (.ok []) (.ok [])
      ⟨[⟨"t1", "Shop", "d.myshopify.com", "tok"⟩], [], [], [], [], 1⟩).trace ∧
    (syncAll "t1" (.error "gql down") (.error "rest down") (.ok []) (.ok [])
      ⟨[⟨"t1", "Shop", "d.myshopify.com", "tok"⟩], [], [], [], [], 1⟩).result =
      .error "rest down" := by
  refine ⟨by decide, by decide, by decide, by decide, rfl⟩

/-- **C2 (amended).** Only the customers fetch of `syncAll` has a
primary/fallback pair: the GraphQL customers client is always attempted
(exactly once); the GraphQL product and order clients are never invoked —
products and orders are fetched by the REST clients only. On GraphQL
success the REST customers fallback is not invoked and the GraphQL list is
used; on GraphQL failure the REST fallback is invoked exactly once and on
success its list is used; when both customer fetches fail, the sync fails
with the fallback's error alone (no combined error). -/
theorem syncAll_customers_fallback_only (tid : String) (s : Store) (tr0 : TenantRow)
    (hfind : s.tenants.find? (fun t0 => decide (t0.id = tid)) = some tr0)
    (gql rest : Except String (List CustRec)) (rp : Except String (List ProdRec))
    (ro : Except String (List OrderRec)) :
    (syncAll tid gql rest rp ro s).trace.countP
        (fun op => decide (op = DbOp.fetchCustomersGraphQL)) = 1 ∧
    DbOp.fetchProductsGraphQL ∉ (syncAll tid gql rest rp ro s).trace ∧
    DbOp.fetchOrdersGraphQL ∉ (syncAll tid gql rest rp ro s).trace ∧
    (∀ cs, gql = .ok cs → DbOp.fetchCustomersRest ∉ (syncAll tid gql rest rp ro s).trace) ∧
    (∀ e, gql = .error e → (syncAll tid gql rest rp ro s).trace.countP
        (fun op => decide (op = DbOp.fetchCustomersRest)) = 1) ∧
    (∀ cs ps os, gql = .ok cs → rp = .ok ps → ro = .ok os →
      (syncAll tid gql rest rp ro s).result = .ok ⟨cs.length, ps.length, os.length⟩) ∧
    (∀ e cs ps os, gql = .error e → rest = .ok cs → rp = .ok ps → ro = .ok os →
      (syncAll tid gql rest rp ro s).result = .ok ⟨cs.length, ps.length, os.length⟩) ∧
    (∀ e e2, gql = .error e → rest = .error e2 →
      (syncAll tid gql rest rp ro s).result = .error e2) := by
  have key : ∀ (X : DbOp), isFetchOp X = true → ∀ (tr : List DbOp),
      (∀ op ∈ tr, isFetchOp op = false) → ∀ a ∈ tr, ¬a = X := by
    intro X hX tr h a ha hcon
    rw [hcon] at ha
    rw [h X ha] at hX
    exact Bool.false_ne_true hX
  have hnotmem : ∀ (X : DbOp) (l : List DbOp),
      l.countP (fun op => decide (op = X)) = 0 → X ∉ l := by
    intro X l h0 hmem
    have := List.countP_eq_zero.mp h0 X hmem
    simp at this
  have hzero : ∀ (X : DbOp), isFetchOp X = true →
      X ≠ DbOp.fetchCustomersGraphQL → X ≠ DbOp.fetchCustomersRest →
      X ≠ DbOp.fetchProductsRest → X ≠ DbOp.fetchOrdersRest →
      ∀ (gql2 rest2 : Except String (List CustRec)) (rp2 : Except String (List ProdRec))
        (ro2 : Except String (List OrderRec)),
      (syncAll tid gql2 rest2 rp2 ro2 s).trace.countP (fun op => decide (op = X)) = 0 := by
    intro X hX h1 h2 h3 h4 gql2 rest2 rp2 ro2
    have h1s : ¬DbOp.fetchCustomersGraphQL = X := fun hh => h1 hh.symm
    have h2s : ¬DbOp.fetchCustomersRest = X := fun hh => h2 hh.symm
    have h3s : ¬DbOp.fetchProductsRest = X := fun hh => h3 hh.symm
    have h4s : ¬DbOp.fetchOrdersRest = X := fun hh => h4 hh.symm
    have htf : ¬DbOp.tenantFindUnique tid = X := by
      intro hh
      rw [← hh] at hX
      simp [isFetchOp] at hX
    rcases gql2 with e | cs
    · rcases rest2 with e2 | cs2
      · simp [syncAll, hfind, List.countP_cons, h1s, h2s, htf]
      · rcases rp2 with ep | ps
        · simp [syncAll, hfind, List.countP_cons, h1s, h2s, h3s, h4s, htf]
        · rcases ro2 with eo | os
          · simp [syncAll, hfind, List.countP_cons, h1s, h2s, h3s, h4s, htf]
          · simp [syncAll, hfind, List.countP_cons, List.countP_append,
              h1s, h2s, h3s, h4s, htf]
            exact ⟨key X hX _ (upsertCustomers_no_fetch tid cs2 s),
              key X hX _ (upsertProducts_no_fetch tid ps _),
              key X hX _ (upsertOrders_no_fetch tid os _)⟩
    · rcases rp2 with ep | ps
      · simp [syncAll, hfind, List.countP_cons, h1s, h3s, h4s, htf]
      · rcases ro2 with eo | os
        · simp [syncAll, hfind, List.countP_cons, h1s, h3s, h4s, htf]
        · simp [syncAll, hfind, List.countP_cons, List.countP_append,
            h1s, h3s, h4s, htf]
          exact ⟨key X hX _ (upsertCustomers_no_fetch tid cs s),
            key X hX _ (upsertProducts_no_fetch tid ps _),
            key X hX _ (upsertOrders_no_fetch tid os _)⟩
  refine ⟨?_, ?_, ?_, ?_, ?_, ?_, ?_, ?_⟩
  · rcases gql with e | cs
    · rcases rest with e2 | cs2
      · simp [syncAll, hfind, List.countP_cons]
      · rcases rp with ep | ps
        · simp [syncAll, hfind, List.countP_cons]
        · rcases ro with eo | os
          · simp [syncAll, hfind, List.countP_cons]
          · simp [syncAll, hfind, List.countP_cons, List.countP_append]
            exact ⟨key DbOp.fetchCustomersGraphQL rfl _ (upsertCustomers_no_fetch tid cs2 s),
              key DbOp.fetchCustomersGraphQL rfl _ (upsertProducts_no_fetch tid ps _),
              key DbOp.fetchCustomersGraphQL rfl _ (upsertOrders_no_fetch tid os _)⟩
    · rcases rp with ep | ps
      · simp [syncAll, hfind, List.countP_cons]
      · rcases ro with eo | os
        · simp [syncAll, hfind, List.countP_cons]
        · simp [syncAll, hfind, List.countP_cons, List.countP_append]
          exact ⟨key DbOp.fetchCustomersGraphQL rfl _ (upsertCustomers_no_fetch tid cs s),
            key DbOp.fetchCustomersGraphQL rfl _ (upsertProducts_no_fetch tid ps _),
            key DbOp.fetchCustomersGraphQL rfl _ (upsertOrders_no_fetch tid os _)⟩
  · exact hnotmem _ _ (hzero DbOp.fetchProductsGraphQL rfl
      (by decide) (by decide) (by decide) (by decide) gql rest rp ro)
  · exact hnotmem _ _ (hzero DbOp.fetchOrdersGraphQL rfl
      (by decide) (by decide) (by decide) (by decide) gql rest rp ro)
  · intro cs hcs
    subst hcs
    refine hnotmem _ _ ?_
    rcases rp with ep | ps
    · simp [syncAll, hfind, List.countP_cons]
    · rcases ro with eo | os
      · simp [syncAll, hfind, List.countP_cons]
      · simp [syncAll, hfind, List.countP_cons, List.countP_append]
        exact ⟨key DbOp.fetchCustomersRest rfl _ (upsertCustomers_no_fetch tid cs s),
          key DbOp.fetchCustomersRest rfl _ (upsertProducts_no_fetch tid ps _),
          key DbOp.fetchCustomersRest rfl _ (upsertOrders_no_fetch tid os _)⟩
  · intro e he
    subst he
    rcases rest with e2 | cs2
    · simp [syncAll, hfind, List.countP_cons]
    · rcases rp with ep | ps
      · simp [syncAll, hfind, List.countP_cons]
      · rcases ro with eo | os
        · simp [syncAll, hfind, List.countP_cons]
        · simp [syncAll, hfind, List.countP_cons, List.countP_append]
          exact ⟨key DbOp.fetchCustomersRest rfl _ (upsertCustomers_no_fetch tid cs2 s),
            key DbOp.fetchCustomersRest rfl _ (upsertProducts_no_fetch tid ps _),
            key DbOp.fetchCustomersRest rfl _ (upsertOrders_no_fetch tid os _)⟩
  · intro cs ps os hcs hps hos
    subst hcs; subst hps; subst hos
    simp [syncAll, hfind, upsertCustomers_count, upsertProducts_count, upsertOrders_count]
  · intro e cs ps os he hcs hps hos
    subst he; subst hcs; subst hps; subst hos
    simp [syncAll, hfind, upsertCustomers_count, upsertProducts_count, upsertOrders_count]
  · intro e e2 he he2
    subst he; subst he2
    simp [syncAll, hfind]

theorem syncAll_customers_fallback_only_witness :
    (syncAll "t1" (.ok []) (.ok []) (.ok []) (.ok [])
      ⟨[⟨"t1", "Shop", "d.myshopify.com", "tok"⟩], [], [], [], [], 1⟩).trace.countP
        (fun op => decide (op = DbOp.fetchCustomersGraphQL)) = 1 :=
  (syncAll_customers_fallback_only "t1"
    ⟨[⟨"t1", "Shop", "d.myshopify.com", "tok"⟩], [], [], [], [], 1⟩
    ⟨"t1", "Shop", "d.myshopify.com", "tok"⟩ rfl (.ok []) (.ok []) (.ok []) (.ok [])).1

end SyncPipeline
